import Mathlib

/-!
Verification of the outbound/inbound fulfillment and stock-ledger core of the
stock-app repository (backend/services/outbound/outbound_process_service.py,
backend/services/inbound/inbound_process_service.py,
backend/services/stock/statuspage_service.py, backend/models.py).

The database is modelled as lists of rows; each service method becomes a pure
function from the database state (plus its arguments) to `Except`, where an
error carries the durable state at the moment the exception is raised (the
services commit at most once per call, so for the single-commit paths the
durable state on error is the input state; the manual-adjust path has an early
commit that creates a missing stock row, which the model reproduces).
Timestamps, audit columns (created_by / updated_by / created_at / updated_at)
and price columns (unit_price, last_unit_price, total_value, sales_price) are
omitted: no claim mentions them and no control flow depends on them.
-/

namespace StockApp

/-- Typed domain error raised by the services (backend/system/error_codes.py).
Only the machine-readable `code` is modelled; the human-readable `detail`
string and the `ctx` dictionary never influence control flow. -/
structure DomainError where
  code : String
deriving DecidableEq

/-- A row of the `product` table (backend/models.py, class Product).
`sku` is unique (DB constraint); `barcode` and `base_sku` are nullable.
`pack_qty` is NOT NULL with server default 1. -/
structure Product where
  sku : String
  barcode : Option String
  is_bundle : Bool
  base_sku : Option String
  pack_qty : Int
  is_active : Bool
  deleted : Bool
deriving DecidableEq

/-- A row of `outbound_header`. `deleted` models `deleted_at IS NOT NULL`. -/
structure OutboundHeader where
  id : Int
  order_number : Option String
  tracking_number : Option String
  status : String
  deleted : Bool
deriving DecidableEq

/-- A row of `outbound_item`. -/
structure OutboundItem where
  id : Int
  header_id : Int
  sku : String
  qty : Int
  scanned_qty : Int
  deleted : Bool
deriving DecidableEq

/-- A row of `inbound_header`. -/
structure InboundHeader where
  id : Int
  status : String
  deleted : Bool
deriving DecidableEq

/-- A row of `inbound_item` (backend/models.py, class InboundItem).
The table has NO `status` column; the confirm service reads the attribute with
`getattr(db_item, "status", None)` and writes it only under
`hasattr(db_item, "status")`.  The field is therefore modelled as an
`Option String` whose value is `none` when the attribute is absent — which is
the only value rows of this repository's schema can carry. -/
structure InboundItem where
  id : Int
  header_id : Int
  sku : String
  qty : Int
  status : Option String
  deleted : Bool
deriving DecidableEq

/-- A row of the append-only `inventory_ledger` table. -/
structure LedgerRow where
  sku : String
  event_type : String
  ref_type : String
  ref_id : Option Int
  qty_in : Int
  qty_out : Int
  memo : Option String
deriving DecidableEq

/-- A row of `stock_current`. `sku` is unique (DB constraint). -/
structure StockRow where
  sku : String
  qty_on_hand : Int
  qty_reserved : Int
  qty_pending_out : Int
  deleted : Bool
deriving DecidableEq

/-- The database state visible to the fulfillment services. -/
structure DB where
  products : List Product
  outHeaders : List OutboundHeader
  outItems : List OutboundItem
  inHeaders : List InboundHeader
  inItems : List InboundItem
  ledger : List LedgerRow
  stocks : List StockRow
deriving DecidableEq

instance [DecidableEq ε] [DecidableEq α] : DecidableEq (Except ε α) := fun x y =>
  match x, y with
  | .ok a, .ok b =>
    if h : a = b then .isTrue (by rw [h])
    else .isFalse (fun hh => h (Except.ok.inj hh))
  | .ok _, .error _ => .isFalse (fun hh => Except.noConfusion hh)
  | .error _, .ok _ => .isFalse (fun hh => Except.noConfusion hh)
  | .error a, .error b =>
    if h : a = b then .isTrue (by rw [h])
    else .isFalse (fun hh => h (Except.error.inj hh))

/-- Replace the first element satisfying `p` by its image under `f`
(SQLAlchemy mutates the single object returned by `scalars().first()`;
key columns are unique, so at most one row matches in practice). -/
def updateFirst (p : α → Bool) (f : α → α) : List α → List α
  | [] => []
  | a :: l => if p a then f a :: l else a :: updateFirst p f l

/-- `qty_on_hand` of the first `stock_current` row for `s`, 0 when absent
(a SKU with no snapshot row holds no stock). -/
def sQty (stocks : List StockRow) (s : String) : Int :=
  match stocks.find? (fun r => r.sku == s) with
  | some r => r.qty_on_hand
  | none => 0

/-- Running sum of `qty_in − qty_out` over the ledger rows of SKU `s`. -/
def ledgerSum : List LedgerRow → String → Int
  | [], _ => 0
  | r :: l, s => (if r.sku == s then r.qty_in - r.qty_out else 0) + ledgerSum l s

/-- Ledger/snapshot consistency: every SKU's snapshot equals its ledger sum. -/
def Consistent (db : DB) : Prop :=
  ∀ s : String, sQty db.stocks s = ledgerSum db.ledger s

/-- Durable state of a service call: result state on success, the state
committed at the moment the exception was raised on failure. -/
def durable : Except (DomainError × DB) DB → DB
  | .ok d => d
  | .error p => p.2

/-- Python `str.strip()`: drop leading and trailing whitespace. -/
def pyStrip (s : String) : String :=
  ⟨((s.data.dropWhile Char.isWhitespace).reverse.dropWhile
      Char.isWhitespace).reverse⟩

/-! ## Outbound fulfillment service (outbound_process_service.py) -/

/-- `_get_header`: first non-deleted header whose order number or tracking
number equals the (already normalized) invoice number. -/
def findHeader (db : DB) (v : String) : Option OutboundHeader :=
  db.outHeaders.find? (fun h =>
    (h.order_number == some v || h.tracking_number == some v) && !h.deleted)

/-- Non-deleted lines of a header (`OutboundItem.header_id == header.id`,
`deleted_at IS NULL`). -/
def linesOf (db : DB) (hid : Int) : List OutboundItem :=
  db.outItems.filter (fun it => it.header_id == hid && !it.deleted)

/-- Product lookup by SKU.  `confirm_outbound` builds
`product_map = {p.sku: p for p in products}`; `product.sku` is unique, so the
first match is the dictionary entry. -/
def findProduct (prods : List Product) (s : String) : Option Product :=
  prods.find? (fun p => p.sku == s)

/-- `pack_qty = getattr(product, "pack_qty", 1) or 1`: Python `or` maps the
falsy integer 0 to 1 (the column is NOT NULL with a positive check). -/
def packEff (p : Product) : Int :=
  if p.pack_qty == 0 then 1 else p.pack_qty

/-- Debit target of one outbound line: `(target_sku, factor)`.  The line's own
SKU with factor 1 unless the product is a bundle with a truthy `base_sku` and
`pack_qty > 1`, in which case `(base_sku, pack_qty)`. -/
def lineTarget (prods : List Product) (it : OutboundItem) : String × Int :=
  match findProduct prods it.sku with
  | none => (it.sku, 1)
  | some p =>
    match p.base_sku with
    | none => (it.sku, 1)
    | some b =>
      if p.is_bundle = true ∧ b ≠ "" ∧ 1 < packEff p then (b, packEff p)
      else (it.sku, 1)

/-- Memo of the outbound ledger row: tagged with the original bundle SKU and
its quantity when resolution replaced the SKU. -/
def outboundMemo (it : OutboundItem) (target : String) : String :=
  if target == it.sku then "출고 확정"
  else "출고 확정 (묶음:" ++ it.sku ++ " x " ++ toString it.qty ++ ")"

/-- The ledger row `confirm_outbound` inserts for one line. -/
def outboundRow (prods : List Product) (hid : Int) (it : OutboundItem) : LedgerRow :=
  let t := lineTarget prods it
  { sku := t.1, event_type := "OUTBOUND", ref_type := "OUTBOUND",
    ref_id := some hid, qty_in := 0, qty_out := it.qty * t.2,
    memo := some (outboundMemo it t.1) }

/-- `stock.qty_on_hand -= effective_qty` on the row found for the target SKU. -/
def decStock (s : String) (q : Int) : List StockRow → List StockRow
  | [] => []
  | r :: l =>
    if r.sku == s then { r with qty_on_hand := r.qty_on_hand - q } :: l
    else r :: decStock s q l

/-- The per-line loop of `confirm_outbound`: resolve the debit target, check
sufficiency against the (already partially decremented) snapshot, decrement,
and append the ledger row; raise `OUTBOUND-STATE-451` on a missing stock row
or insufficient stock. -/
def processLines (prods : List Product) (hid : Int) :
    List OutboundItem → List StockRow → List LedgerRow →
    Except DomainError (List StockRow × List LedgerRow)
  | [], stocks, acc => .ok (stocks, acc)
  | it :: rest, stocks, acc =>
    let t := lineTarget prods it
    let eff := it.qty * t.2
    match stocks.find? (fun r => r.sku == t.1) with
    | none => .error ⟨"OUTBOUND-STATE-451"⟩
    | some stock =>
      if stock.qty_on_hand < eff then .error ⟨"OUTBOUND-STATE-451"⟩
      else processLines prods hid rest (decStock t.1 eff stocks)
             (acc ++ [outboundRow prods hid it])

/-- Set the status of the (unique) header with the given id. -/
def setOutStatus (hs : List OutboundHeader) (hid : Int) (st : String) :
    List OutboundHeader :=
  updateFirst (fun h => h.id == hid) (fun h => { h with status := st }) hs

/-- `OutboundProcessService.confirm_outbound`.  Single commit at the end of
the method: every raise leaves the durable state untouched. -/
def confirm_outbound (db : DB) (invoice_no : String) :
    Except (DomainError × DB) DB :=
  let v := pyStrip invoice_no
  if v == "" then .error (⟨"OUTBOUND-VALID-001"⟩, db)
  else
    match findHeader db v with
    | none => .error (⟨"OUTBOUND-NOTFOUND-101"⟩, db)
    | some header =>
      if header.status == "picking" then
        let items := linesOf db header.id
        if items.isEmpty then .error (⟨"OUTBOUND-STATE-451"⟩, db)
        else if items.any (fun it => it.qty != it.scanned_qty) then
          .error (⟨"OUTBOUND-STATE-451"⟩, db)
        else
          match processLines db.products header.id items db.stocks [] with
          | .error e => .error (e, db)
          | .ok st =>
            .ok { db with
              stocks := st.1,
              ledger := db.ledger ++ st.2,
              outHeaders := setOutStatus db.outHeaders header.id "completed" }
      else .error (⟨"OUTBOUND-STATE-451"⟩, db)

/-- The line `scan_item` targets: same header, the scanned product's SKU,
not soft-deleted. -/
def scanPred (hid : Int) (s : String) (it : OutboundItem) : Bool :=
  it.header_id == hid && it.sku == s && !it.deleted

/-- The part of the `scan_item` response the claims are about. -/
structure ScanResult where
  item_id : Int
  qty : Int
  scanned_qty : Int
  over_scan : Bool
deriving DecidableEq

/-- `OutboundProcessService.scan_item`: requires status `picking`; resolves
barcode to product to line; over-scan (`scanned_qty >= qty`) answers without
incrementing, otherwise `scanned_qty += 1` is persisted. -/
def scan_item (db : DB) (invoice_no barcode : String) :
    Except (DomainError × DB) (DB × ScanResult) :=
  let v := pyStrip invoice_no
  if v == "" then .error (⟨"OUTBOUND-VALID-001"⟩, db)
  else
    let b := pyStrip barcode
    if b == "" then .error (⟨"OUTBOUND-VALID-001"⟩, db)
    else
      match findHeader db v with
      | none => .error (⟨"OUTBOUND-NOTFOUND-101"⟩, db)
      | some header =>
        if header.status == "picking" then
          match db.products.find? (fun p => p.barcode == some b) with
          | none => .error (⟨"OUTBOUND-NOTFOUND-101"⟩, db)
          | some product =>
            match db.outItems.find? (scanPred header.id product.sku) with
            | none => .error (⟨"OUTBOUND-NOTFOUND-101"⟩, db)
            | some item =>
              if item.qty ≤ item.scanned_qty then
                .ok (db, ⟨item.id, item.qty, item.scanned_qty, true⟩)
              else
                .ok ({ db with
                        outItems := updateFirst (scanPred header.id product.sku)
                          (fun it => { it with scanned_qty := it.scanned_qty + 1 })
                          db.outItems },
                     ⟨item.id, item.qty, item.scanned_qty + 1, false⟩)
        else .error (⟨"OUTBOUND-STATE-451"⟩, db)

/-- Durable state of a `scan_item` call. -/
def durableScan : Except (DomainError × DB) (DB × ScanResult) → DB
  | .ok p => p.1
  | .error p => p.2

/-! ## Manual stock adjustment (statuspage_service.py, StatusPageService.adjust) -/

/-- `stock_current` row selector of the adjust path
(`WHERE sku = :sku AND deleted_at IS NULL ... FOR UPDATE`). -/
def livePred (s : String) (r : StockRow) : Bool :=
  r.sku == s && !r.deleted

/-- The `ADJUST` ledger row (`ref_type = 'STOCK_ADJUST'`, `ref_id = NULL`).
The memo argument of the service is not modelled; the default memo is used. -/
def adjRow (s : String) (qin qout : Int) : LedgerRow :=
  { sku := s, event_type := "ADJUST", ref_type := "STOCK_ADJUST", ref_id := none,
    qty_in := qin, qty_out := qout, memo := some "실사조정" }

/-- Tail of `adjust` once the stock row is at hand: refuse `final_qty` below
`qty_pending_out`, else insert one ledger row for `delta = final − before` and
set `qty_on_hand = final_qty`.  `dbAt` is the durable state at this point
(it differs from the call's input state when the row was just created). -/
def adjustGo (dbAt : DB) (s : String) (final_qty : Int) (row : StockRow) :
    Except (DomainError × DB) DB :=
  if final_qty < row.qty_pending_out then .error (⟨"STOCK-STATE-451"⟩, dbAt)
  else
    let delta := final_qty - row.qty_on_hand
    let qin := if 0 < delta then delta else 0
    let qout := if delta < 0 then -delta else 0
    .ok { dbAt with
      ledger := dbAt.ledger ++ [adjRow s qin qout],
      stocks := updateFirst (livePred s)
        (fun r => { r with qty_on_hand := final_qty }) dbAt.stocks }

/-- The zero snapshot row the adjust path inserts for a missing SKU. -/
def newStockRow (s : String) : StockRow :=
  { sku := s, qty_on_hand := 0, qty_reserved := 0, qty_pending_out := 0,
    deleted := false }

/-- `StatusPageService.adjust(sku, final_qty)`.  When no live stock row
exists, the service verifies the product is active and non-deleted, inserts a
zero snapshot row and commits it durably before re-reading (the model keeps
this intermediate state in the error result of `adjustGo`). -/
def adjust (db : DB) (sku : String) (final_qty : Int) :
    Except (DomainError × DB) DB :=
  let s := pyStrip sku
  if s == "" then .error (⟨"STOCK-VALID-001"⟩, db)
  else if final_qty < 0 then .error (⟨"STOCK-VALID-001"⟩, db)
  else
    match db.stocks.find? (livePred s) with
    | some row => adjustGo db s final_qty row
    | none =>
      match db.products.find?
          (fun p => p.sku == s && !p.deleted && p.is_active) with
      | none => .error (⟨"STOCK-NOTFOUND-101"⟩, db)
      | some _ =>
        adjustGo { db with stocks := db.stocks ++ [newStockRow s] } s
          final_qty (newStockRow s)

/-! ## Inbound fulfillment service (inbound_process_service.py) -/

/-- One element of the `items` argument of `InboundProcessService.confirm`
(already shaped: `_normalize_confirm_items` only checks each element is a
dict carrying an `item_id`). `sku` is optional in the request; `qty = none`
models a missing/blank quantity. -/
structure ConfirmItem where
  item_id : Int
  sku : Option String
  qty : Option Int
deriving DecidableEq

/-- `_normalize_sku`: strip, refuse empty and longer than 50 characters. -/
def normSku (raw : String) : Except DomainError String :=
  let s := pyStrip raw
  if s == "" then .error ⟨"INBOUND-VALID-001"⟩
  else if 50 < s.length then .error ⟨"INBOUND-VALID-001"⟩
  else .ok s

/-- `_normalize_qty(raw, allow_zero=False)`: required and at least 1. -/
def normQtyPos : Option Int → Except DomainError Int
  | none => .error ⟨"INBOUND-VALID-001"⟩
  | some q => if q ≤ 0 then .error ⟨"INBOUND-VALID-001"⟩ else .ok q

/-- `_normalize_operator`: required, stripped, non-empty, at most 50 chars. -/
def normOperator : Option String → Except DomainError String
  | none => .error ⟨"INBOUND-VALID-001"⟩
  | some raw =>
    let s := pyStrip raw
    if s == "" then .error ⟨"INBOUND-VALID-001"⟩
    else if 50 < s.length then .error ⟨"INBOUND-VALID-001"⟩
    else .ok s

/-- `db_item_map[item_id]` (ids are the unique primary key). -/
def findItem (l : List InboundItem) (iid : Int) : Option InboundItem :=
  l.find? (fun it => it.id == iid)

/-- The header/status loop of `confirm`: the first item belonging to another
header raises `INBOUND-CONFIRM-004`; the first item whose (optional) status
attribute reads `"committed"` raises `INBOUND-CONFIRM-005`. -/
def checkItems (hid : Int) : List InboundItem → Except DomainError Unit
  | [] => .ok ()
  | it :: rest =>
    if it.header_id != hid then .error ⟨"INBOUND-CONFIRM-004"⟩
    else if it.status == some "committed" then .error ⟨"INBOUND-CONFIRM-005"⟩
    else checkItems hid rest

/-- Request-SKU cross check of one confirm row: a provided SKU is normalized
and must equal the stored item's SKU (`INBOUND-CONFIRM-006`). -/
def checkReqSku (dbSku : String) : Option String → Except DomainError Unit
  | none => .ok ()
  | some raw =>
    match normSku raw with
    | .error e => .error e
    | .ok nrs => if nrs != dbSku then .error ⟨"INBOUND-CONFIRM-006"⟩ else .ok ()

/-- The per-request-row loop of `confirm`: look the item up, cross-check the
SKU, validate the quantity, refuse an empty stored SKU
(`INBOUND-CONFIRM-007`), and collect `(item_id, sku, qty)` triples in request
order.  A missing map entry would be a Python `KeyError`; it is unreachable
behind the row-count check and modelled as the code `"PY-KEYERROR"`. -/
def collectPairs (db_items : List InboundItem) :
    List ConfirmItem → Except DomainError (List (Int × String × Int))
  | [] => .ok []
  | row :: rest =>
    match findItem db_items row.item_id with
    | none => .error ⟨"PY-KEYERROR"⟩
    | some db_item =>
      match checkReqSku db_item.sku row.sku with
      | .error e => .error e
      | .ok _ =>
        match normQtyPos row.qty with
        | .error e => .error e
        | .ok nq =>
          if db_item.sku == "" then .error ⟨"INBOUND-CONFIRM-007"⟩
          else
            match collectPairs db_items rest with
            | .error e => .error e
            | .ok ps => .ok ((row.item_id, db_item.sku, nq) :: ps)

/-- Accumulate a quantity into an association list, keeping first-occurrence
order (the Python dict `qty_by_sku`). -/
def addAssoc (s : String) (q : Int) : List (String × Int) → List (String × Int)
  | [] => [(s, q)]
  | (t, v) :: rest =>
    if t == s then (t, v + q) :: rest else (t, v) :: addAssoc s q rest

/-- `qty_by_sku`: per-SKU aggregation of the collected quantities. -/
def aggregate (l : List (String × Int)) : List (String × Int) :=
  l.foldl (fun acc p => addAssoc p.1 p.2 acc) []

/-- Sum of the quantities recorded against SKU `s` in a pair list. -/
def sumPairs : List (String × Int) → String → Int
  | [], _ => 0
  | (t, v) :: rest, s => (if t == s then v else 0) + sumPairs rest s

/-- Whether a pair list carries SKU `s`. -/
def hasKey (l : List (String × Int)) (s : String) : Bool :=
  l.any (fun p => p.1 == s)

/-- The `INBOUND` ledger row inserted per aggregated SKU. -/
def inboundRow (hid : Int) (p : String × Int) : LedgerRow :=
  { sku := p.1, event_type := "INBOUND", ref_type := "INBOUND",
    ref_id := some hid, qty_in := p.2, qty_out := 0, memo := none }

/-- Stock application of one aggregated `(sku, qty)` entry: increment the
existing snapshot row or create a fresh one holding `qty`. -/
def applyInbound (stocks : List StockRow) (s : String) (q : Int) :
    List StockRow :=
  match stocks.find? (fun r => r.sku == s) with
  | some _ =>
    updateFirst (fun r => r.sku == s)
      (fun r => { r with qty_on_hand := r.qty_on_hand + q }) stocks
  | none =>
    stocks ++ [{ sku := s, qty_on_hand := q, qty_reserved := 0,
                 qty_pending_out := 0, deleted := false }]

/-- `db_item.qty = norm_qty` for every request row (field exists on the
model, so the `hasattr` guard passes). -/
def setQtys (triples : List (Int × String × Int)) (l : List InboundItem) :
    List InboundItem :=
  triples.foldl
    (fun acc t =>
      updateFirst (fun it => it.id == t.1)
        (fun it => { it with qty := t.2.2 }) acc)
    l

/-- `if hasattr(db_item, "status"): db_item.status = "committed"` — only
items that carry a status attribute are marked. -/
def markCommitted (ids : List Int) (l : List InboundItem) : List InboundItem :=
  ids.foldl
    (fun acc iid =>
      updateFirst (fun it => it.id == iid)
        (fun it =>
          if it.status.isSome then { it with status := some "committed" }
          else it)
        acc)
    l

/-- `InboundProcessService.confirm(header_id, items, operator)`.  Single
commit at the end of the method. -/
def inConfirm (db : DB) (header_id : Int) (items : List ConfirmItem)
    (operator : Option String) : Except (DomainError × DB) DB :=
  if header_id ≤ 0 then .error (⟨"INBOUND-VALID-001"⟩, db)
  else if items.isEmpty then .error (⟨"INBOUND-VALID-001"⟩, db)
  else
    match normOperator operator with
    | .error e => .error (e, db)
    | .ok _ =>
      match db.inHeaders.find? (fun h => h.id == header_id && !h.deleted) with
      | none => .error (⟨"INBOUND-CONFIRM-001"⟩, db)
      | some hd =>
        if hd.status == "committed" then .error (⟨"INBOUND-CONFIRM-002"⟩, db)
        else if items.any (fun r => r.item_id ≤ 0) then
          .error (⟨"INBOUND-VALID-001"⟩, db)
        else
          let ids := items.map (fun r => r.item_id)
          let db_items :=
            db.inItems.filter (fun it => ids.contains it.id && !it.deleted)
          if db_items.length ≠ ids.length then
            .error (⟨"INBOUND-CONFIRM-003"⟩, db)
          else
            match checkItems header_id db_items with
            | .error e => .error (e, db)
            | .ok _ =>
              match collectPairs db_items items with
              | .error e => .error (e, db)
              | .ok triples =>
                let agg := aggregate (triples.map (fun t => (t.2.1, t.2.2)))
                .ok { db with
                  inHeaders := updateFirst
                    (fun h => h.id == header_id && !h.deleted)
                    (fun h => { h with status := "committed" }) db.inHeaders,
                  inItems := markCommitted ids (setQtys triples db.inItems),
                  ledger := db.ledger ++ agg.map (inboundRow header_id),
                  stocks := agg.foldl (fun st p => applyInbound st p.1 p.2)
                    db.stocks }

/-! ## Helper lemmas -/

/-- Per-line debit pairs `(resolved SKU, effective quantity)` of a line list. -/
def outPairs (prods : List Product) (l : List OutboundItem) :
    List (String × Int) :=
  l.map (fun it => ((lineTarget prods it).1, it.qty * (lineTarget prods it).2))

/-- Number of entries of a pair list recorded against SKU `s`. -/
def keyCount (l : List (String × Int)) (s : String) : Nat :=
  (l.filter (fun p => p.1 == s)).length

/-! ## Concrete states used by counterexamples and witnesses -/

/-- Two bundle SKUs `B1`, `B2`, both resolving to base SKU `X` with pack 2;
one picking header `I1` with one fully scanned line of each bundle. -/
def exTwoBundles : DB :=
  { products := [⟨"B1", none, true, some "X", 2, true, false⟩,
                 ⟨"B2", none, true, some "X", 2, true, false⟩],
    outHeaders := [⟨1, some "I1", none, "picking", false⟩],
    outItems := [⟨1, 1, "B1", 1, 1, false⟩, ⟨2, 1, "B2", 1, 1, false⟩],
    inHeaders := [], inItems := [],
    ledger := [⟨"X", "INBOUND", "INBOUND", some 9, 10, 0, none⟩],
    stocks := [⟨"X", 10, 0, 0, false⟩] }

/-- A bundle SKU `B` with `base_sku = "X"` but `pack_qty = 1`, a fully
scanned one-line picking header, and stock for both `B` and `X`. -/
def exPackOne : DB :=
  { products := [⟨"B", none, true, some "X", 1, true, false⟩],
    outHeaders := [⟨1, some "I4", none, "picking", false⟩],
    outItems := [⟨1, 1, "B", 1, 1, false⟩],
    inHeaders := [], inItems := [],
    ledger := [],
    stocks := [⟨"B", 5, 0, 0, false⟩, ⟨"X", 5, 0, 0, false⟩] }

/-- A picking header with one line planned 2 / scanned 0 and a product
carrying barcode `1234`. -/
def exScanDb : DB :=
  { products := [⟨"A", some "1234", false, none, 1, true, false⟩],
    outHeaders := [⟨1, some "S1", none, "picking", false⟩],
    outItems := [⟨1, 1, "A", 2, 0, false⟩],
    inHeaders := [], inItems := [], ledger := [], stocks := [] }

/-- A fully scanned picking header whose only SKU `A` needs 2 units while
only 1 is on hand. -/
def exShortStock : DB :=
  { products := [],
    outHeaders := [⟨1, some "I3", none, "picking", false⟩],
    outItems := [⟨1, 1, "A", 2, 2, false⟩],
    inHeaders := [], inItems := [],
    ledger := [⟨"A", "INBOUND", "INBOUND", some 9, 1, 0, none⟩],
    stocks := [⟨"A", 1, 0, 0, false⟩] }

/-- An already completed outbound header. -/
def exCompleted : DB :=
  { products := [],
    outHeaders := [⟨1, some "I6", none, "completed", false⟩],
    outItems := [⟨1, 1, "A", 1, 1, false⟩],
    inHeaders := [], inItems := [],
    ledger := [], stocks := [⟨"A", 5, 0, 0, false⟩] }

/-- A picking header with no non-deleted lines. -/
def exNoLines : DB :=
  { products := [],
    outHeaders := [⟨1, some "I0", none, "picking", false⟩],
    outItems := [⟨1, 1, "A", 1, 1, true⟩],
    inHeaders := [], inItems := [],
    ledger := [], stocks := [] }

/-- SKU `B` with 3 on hand, nothing pending, and a consistent ledger. -/
def exAdjDb : DB :=
  { products := [], outHeaders := [], outItems := [],
    inHeaders := [], inItems := [],
    ledger := [⟨"B", "INBOUND", "INBOUND", some 1, 3, 0, none⟩],
    stocks := [⟨"B", 3, 0, 0, false⟩] }

/-- SKU `B` with 3 on hand and 1 pending out. -/
def exAdjPending : DB :=
  { products := [], outHeaders := [], outItems := [],
    inHeaders := [], inItems := [],
    ledger := [⟨"B", "INBOUND", "INBOUND", some 1, 3, 0, none⟩],
    stocks := [⟨"B", 3, 0, 1, false⟩] }

/-- A draft inbound header with two lines of SKU `A` (no status attribute on
the items, as in the repository's schema) and existing consistent stock. -/
def exInboundDb : DB :=
  { products := [], outHeaders := [], outItems := [],
    inHeaders := [⟨1, "draft", false⟩],
    inItems := [⟨1, 1, "A", 1, none, false⟩, ⟨2, 1, "A", 1, none, false⟩],
    ledger := [⟨"A", "INBOUND", "INBOUND", some 9, 10, 0, none⟩],
    stocks := [⟨"A", 10, 0, 0, false⟩] }

/-- Confirm request for `exInboundDb`: quantities 2 and 3 for the two lines. -/
def exInboundReq : List ConfirmItem := [⟨1, none, some 2⟩, ⟨2, none, some 3⟩]

/-- Like `exInboundDb` but the second referenced item belongs to another
header. -/
def exInboundBad : DB :=
  { products := [], outHeaders := [], outItems := [],
    inHeaders := [⟨1, "draft", false⟩],
    inItems := [⟨1, 1, "A", 1, none, false⟩, ⟨2, 2, "A", 1, none, false⟩],
    ledger := [], stocks := [] }

/-! ## Helper lemmas (continued) -/

theorem updateFirst_find?_self {p : α → Bool} {f : α → α} {l : List α} {x : α}
    (h : l.find? p = some x) (hpf : p (f x) = true) :
    (updateFirst p f l).find? p = some (f x) := by
  induction l with
  | nil => simp [List.find?] at h
  | cons a l ih =>
    rw [List.find?_cons] at h
    by_cases ha : p a = true
    · simp only [ha] at h
      cases h
      simp only [updateFirst, ha, if_true]
      rw [List.find?_cons]
      simp [hpf]
    · have hb : p a = false := by simpa using ha
      simp only [hb] at h
      simp only [updateFirst, hb, Bool.false_eq_true, if_false]
      rw [List.find?_cons]
      simp only [hb]
      exact ih h

theorem updateFirst_find?_congr {p q : α → Bool} {f : α → α} {l : List α}
    (hfix : ∀ a, p a = true → q a = q (f a) ∧ (q a = true → f a = a)) :
    (updateFirst p f l).find? q = l.find? q := by
  induction l with
  | nil => rfl
  | cons a l ih =>
    by_cases ha : p a = true
    · simp only [updateFirst, ha, if_true]
      rw [List.find?_cons, List.find?_cons, ← (hfix a ha).1]
      by_cases hq : q a = true
      · simp only [hq, (hfix a ha).2 hq]
      · have hb : q a = false := by simpa using hq
        simp only [hb]
    · have hb : p a = false := by simpa using ha
      simp only [updateFirst, hb, Bool.false_eq_true, if_false]
      rw [List.find?_cons, List.find?_cons]
      by_cases hq : q a = true
      · simp only [hq]
      · have hqb : q a = false := by simpa using hq
        simp only [hqb]
        exact ih

theorem mem_updateFirst {p : α → Bool} {f : α → α} {l : List α} {y : α}
    (h : y ∈ updateFirst p f l) :
    y ∈ l ∨ ∃ x, x ∈ l ∧ p x = true ∧ y = f x := by
  induction l with
  | nil => simp [updateFirst] at h
  | cons a l ih =>
    by_cases ha : p a
    · simp only [updateFirst, if_pos ha, List.mem_cons] at h
      rcases h with h | h
      · exact .inr ⟨a, List.mem_cons_self .., ha, h⟩
      · exact .inl (List.mem_cons_of_mem _ h)
    · simp only [updateFirst, if_neg ha, List.mem_cons] at h
      rcases h with h | h
      · exact .inl (h ▸ List.mem_cons_self ..)
      · rcases ih h with h' | ⟨x, hx, hpx, hy⟩
        · exact .inl (List.mem_cons_of_mem _ h')
        · exact .inr ⟨x, List.mem_cons_of_mem _ hx, hpx, hy⟩

theorem ledgerSum_append (a b : List LedgerRow) (s : String) :
    ledgerSum (a ++ b) s = ledgerSum a s + ledgerSum b s := by
  induction a with
  | nil => simp [ledgerSum]
  | cons r a ih => simp [ledgerSum, ih]; ring

theorem sQty_decStock_self {stocks : List StockRow} {s : String} {q : Int}
    (h : (stocks.find? (fun r => r.sku == s)).isSome = true) :
    sQty (decStock s q stocks) s = sQty stocks s - q := by
  induction stocks with
  | nil => simp [List.find?] at h
  | cons r l ih =>
    by_cases hr : r.sku = s
    · have hb : (r.sku == s) = true := by simp [hr]
      simp [decStock, sQty, List.find?_cons, hb]
    · have hb : (r.sku == s) = false := by simp [hr]
      rw [List.find?_cons] at h
      simp only [hb] at h
      simp only [decStock, hb, Bool.false_eq_true, if_false]
      simp only [sQty, List.find?_cons, hb] at ih ⊢
      exact ih h

theorem sQty_decStock_other {stocks : List StockRow} {s t : String} {q : Int}
    (h : t ≠ s) : sQty (decStock s q stocks) t = sQty stocks t := by
  induction stocks with
  | nil => rfl
  | cons r l ih =>
    by_cases hr : r.sku = s
    · have hb : (r.sku == s) = true := by simp [hr]
      have hrt : (r.sku == t) = false := by
        simp only [beq_eq_false_iff_ne, ne_eq, hr]
        exact fun hst => h hst.symm
      simp only [decStock, hb, if_true, sQty, List.find?_cons, hrt]
    · have hb : (r.sku == s) = false := by simp [hr]
      simp only [decStock, hb, Bool.false_eq_true, if_false]
      simp only [sQty, List.find?_cons] at ih ⊢
      cases hrt : (r.sku == t) <;> simp only [] <;> try exact ih

theorem find?_decStock_isSome (stocks : List StockRow) (s t : String) (q : Int) :
    ((decStock s q stocks).find? (fun r => r.sku == t)).isSome =
      (stocks.find? (fun r => r.sku == t)).isSome := by
  induction stocks with
  | nil => rfl
  | cons r l ih =>
    by_cases hr : r.sku = s
    · have hb : (r.sku == s) = true := by simp [hr]
      simp only [decStock, hb, if_true]
      rw [List.find?_cons, List.find?_cons]
      cases hrt : (r.sku == t) <;> simp
    · have hb : (r.sku == s) = false := by simp [hr]
      simp only [decStock, hb, Bool.false_eq_true, if_false]
      rw [List.find?_cons, List.find?_cons]
      cases hrt : (r.sku == t) <;> simp only [Option.isSome]
      exact ih

theorem outPairs_cons (prods : List Product) (it : OutboundItem)
    (rest : List OutboundItem) :
    outPairs prods (it :: rest) =
      ((lineTarget prods it).1, it.qty * (lineTarget prods it).2) ::
        outPairs prods rest := rfl

theorem sumPairs_outPairs_cons (prods : List Product) (it : OutboundItem)
    (rest : List OutboundItem) (t : String) :
    sumPairs (outPairs prods (it :: rest)) t =
      (if (lineTarget prods it).1 == t then it.qty * (lineTarget prods it).2
       else 0) + sumPairs (outPairs prods rest) t := rfl

theorem sumPairs_outPairs_eq_zero {prods : List Product}
    {l : List OutboundItem} {u : String}
    (h : ∀ it ∈ l, (lineTarget prods it).1 ≠ u) :
    sumPairs (outPairs prods l) u = 0 := by
  induction l with
  | nil => rfl
  | cons it rest ih =>
    have h1 : ((lineTarget prods it).1 == u) = false := by
      simp [h it (List.mem_cons_self ..)]
    simp only [outPairs, List.map_cons, sumPairs, h1, Bool.false_eq_true,
      if_false, zero_add]
    exact ih (fun x hx => h x (List.mem_cons_of_mem _ hx))

theorem ledgerSum_outboundRows (prods : List Product) (hid : Int)
    (l : List OutboundItem) (s : String) :
    ledgerSum (l.map (outboundRow prods hid)) s = -sumPairs (outPairs prods l) s := by
  induction l with
  | nil => rfl
  | cons it rest ih =>
    simp only [List.map_cons, ledgerSum, outPairs, sumPairs, ih, outboundRow]
    cases h : ((lineTarget prods it).1 == s) <;> simp <;> ring

theorem processLines_error_code {prods : List Product} {hid : Int}
    {l : List OutboundItem} {stocks : List StockRow} {acc : List LedgerRow}
    {e : DomainError}
    (h : processLines prods hid l stocks acc = .error e) :
    e = ⟨"OUTBOUND-STATE-451"⟩ := by
  induction l generalizing stocks acc with
  | nil => simp [processLines] at h
  | cons it rest ih =>
    simp only [processLines] at h
    split at h
    · cases h
      rfl
    · split at h
      · cases h
        rfl
      · exact ih h

theorem processLines_ok {prods : List Product} {hid : Int} :
    ∀ {l : List OutboundItem} {stocks : List StockRow} {acc : List LedgerRow}
      {st : List StockRow × List LedgerRow},
    processLines prods hid l stocks acc = .ok st →
    st.2 = acc ++ l.map (outboundRow prods hid) ∧
    (∀ t, sQty st.1 t = sQty stocks t - sumPairs (outPairs prods l) t) ∧
    (∀ it ∈ l,
      (stocks.find? (fun r => r.sku == (lineTarget prods it).1)).isSome = true ∧
      sumPairs (outPairs prods l) ((lineTarget prods it).1) ≤
        sQty stocks ((lineTarget prods it).1)) := by
  intro l
  induction l with
  | nil =>
    intro stocks acc st h
    simp only [processLines] at h
    cases h
    refine ⟨by simp, fun t => by simp [outPairs, sumPairs], by simp⟩
  | cons it rest ih =>
    intro stocks acc st h
    simp only [processLines] at h
    split at h
    · cases h
    · rename_i stock hf
      split at h
      · cases h
      · rename_i hq
        push_neg at hq
        obtain ⟨hacc, hqty, hbound⟩ := ih h
        set tg := (lineTarget prods it).1 with htg
        set eff := it.qty * (lineTarget prods it).2 with heff
        have hsome : (stocks.find? (fun r => r.sku == tg)).isSome = true := by
          rw [hf]; rfl
        have hsq : sQty stocks tg = stock.qty_on_hand := by
          simp [sQty, hf]
        have hdec_self : sQty (decStock tg eff stocks) tg =
            sQty stocks tg - eff := sQty_decStock_self hsome
        have hqall : ∀ t, sQty (decStock tg eff stocks) t =
            sQty stocks t - (if tg == t then eff else 0) := by
          intro t
          by_cases ht : t = tg
          · subst ht
            simp [hdec_self]
          · rw [sQty_decStock_other ht]
            have : (tg == t) = false := by
              simp only [beq_eq_false_iff_ne, ne_eq]
              exact fun hh => ht hh.symm
            simp [this]
        refine ⟨?_, ?_, ?_⟩
        · rw [hacc]
          simp [List.append_assoc]
        · intro t
          rw [hqty t, hqall t]
          rw [sumPairs_outPairs_cons]
          ring
        · intro x hx
          rcases List.mem_cons.mp hx with hx | hx
          · subst hx
            refine ⟨hsome, ?_⟩
            rw [sumPairs_outPairs_cons]
            simp only [← htg, ← heff, beq_self_eq_true, if_true]
            by_cases hmem : ∃ y ∈ rest, (lineTarget prods y).1 = tg
            · obtain ⟨y, hy, hty⟩ := hmem
              have := (hbound y hy).2
              rw [hty] at this
              rw [hqall tg] at this
              simp only [beq_self_eq_true, if_true] at this
              omega
            · push_neg at hmem
              rw [sumPairs_outPairs_eq_zero hmem]
              omega
          · have hxs := (hbound x hx).1
            have hxb := (hbound x hx).2
            constructor
            · rw [← find?_decStock_isSome stocks tg (lineTarget prods x).1 eff]
              exact hxs
            · rw [hqall ((lineTarget prods x).1)] at hxb
              rw [sumPairs_outPairs_cons]
              simp only [← htg, ← heff]
              by_cases hts : tg = (lineTarget prods x).1
              · rw [← hts] at hxb ⊢
                simp only [beq_self_eq_true, if_true] at hxb ⊢
                omega
              · have : (tg == (lineTarget prods x).1) = false := by
                  simp [hts]
                rw [this] at hxb
                simp only [this, Bool.false_eq_true, if_false] at hxb ⊢
                omega

/-- Inversion of a successful `confirm_outbound`: some non-deleted header
matched the invoice number, it was in `picking`, the per-line loop succeeded,
and the result state is exactly the loop's stocks, the appended ledger rows,
and the completed header. -/
theorem confirm_outbound_ok_inv {db : DB} {invoice_no : String} {db2 : DB}
    (hok : confirm_outbound db invoice_no = .ok db2) :
    ∃ h, findHeader db (pyStrip invoice_no) = some h ∧
    h.status = "picking" ∧ linesOf db h.id ≠ [] ∧
    ∃ stocks2 rows,
      processLines db.products h.id (linesOf db h.id) db.stocks [] =
        .ok (stocks2, rows) ∧
      db2 = { db with
              stocks := stocks2,
              ledger := db.ledger ++ rows,
              outHeaders := setOutStatus db.outHeaders h.id "completed" } := by
  simp only [confirm_outbound] at hok
  split at hok
  · cases hok
  · split at hok
    · cases hok
    · rename_i header heq
      split at hok
      · rename_i hst
        split at hok
        · cases hok
        · rename_i hemp
          split at hok
          · cases hok
          · split at hok
            · cases hok
            · rename_i st hpl
              cases hok
              exact ⟨header, heq, by simpa using hst,
                by simpa [List.isEmpty_iff] using hemp, st.1, st.2, hpl, rfl⟩
      · cases hok

/-- Observable effects of a successful `confirm_outbound`: exactly one
`OUTBOUND` ledger row is appended per non-deleted line (in line order), and
every SKU's snapshot drops by the total effective debit resolved against it;
items and the other tables are untouched. -/
theorem confirm_outbound_ok_effects {db : DB} {invoice_no : String} {db2 : DB}
    (hok : confirm_outbound db invoice_no = .ok db2) :
    ∃ h, findHeader db (pyStrip invoice_no) = some h ∧
      h.status = "picking" ∧ linesOf db h.id ≠ [] ∧
      db2.ledger = db.ledger ++
        (linesOf db h.id).map (outboundRow db.products h.id) ∧
      (∀ t, sQty db2.stocks t =
        sQty db.stocks t - sumPairs (outPairs db.products (linesOf db h.id)) t) ∧
      db2.outHeaders = setOutStatus db.outHeaders h.id "completed" ∧
      db2.outItems = db.outItems ∧ db2.inItems = db.inItems ∧
      db2.inHeaders = db.inHeaders ∧ db2.products = db.products := by
  obtain ⟨h, hh, hst, hne, stocks2, rows, hpl, rfl⟩ := confirm_outbound_ok_inv hok
  obtain ⟨hacc, hqty, _⟩ := processLines_ok hpl
  simp only [List.nil_append] at hacc
  refine ⟨h, hh, hst, hne, ?_, ?_, rfl, rfl, rfl, rfl, rfl⟩
  · simpa [hacc] using rfl
  · intro t
    simpa using hqty t

theorem mem_updateFirst_find? {p : α → Bool} {f : α → α} {l : List α} {y : α}
    (h : y ∈ updateFirst p f l) :
    y ∈ l ∨ ∃ x, l.find? p = some x ∧ y = f x := by
  induction l with
  | nil => simp [updateFirst] at h
  | cons a l ih =>
    by_cases ha : p a = true
    · simp only [updateFirst, ha, if_true, List.mem_cons] at h
      rcases h with h | h
      · refine .inr ⟨a, ?_, h⟩
        rw [List.find?_cons]
        simp [ha]
      · exact .inl (List.mem_cons_of_mem _ h)
    · have hb : p a = false := by simpa using ha
      simp only [updateFirst, hb, Bool.false_eq_true, if_false,
        List.mem_cons] at h
      rcases h with h | h
      · exact .inl (h ▸ List.mem_cons_self ..)
      · rcases ih h with h1 | ⟨x, hx, hy⟩
        · exact .inl (List.mem_cons_of_mem _ h1)
        · refine .inr ⟨x, ?_, hy⟩
          rw [List.find?_cons]
          simp only [hb]
          exact hx

theorem find?_congr_of_mem {p q : α → Bool} {l : List α}
    (h : ∀ a ∈ l, p a = q a) : l.find? p = l.find? q := by
  induction l with
  | nil => rfl
  | cons a l ih =>
    rw [List.find?_cons, List.find?_cons, ← h a (List.mem_cons_self ..)]
    cases hp : p a
    · exact ih (fun x hx => h x (List.mem_cons_of_mem _ hx))
    · rfl

theorem updateFirst_congr_of_mem {p q : α → Bool} {f : α → α} {l : List α}
    (h : ∀ a ∈ l, p a = q a) : updateFirst p f l = updateFirst q f l := by
  induction l with
  | nil => rfl
  | cons a l ih =>
    simp only [updateFirst, ← h a (List.mem_cons_self ..)]
    cases hp : p a
    · simp only [Bool.false_eq_true, if_false]
      rw [ih (fun x hx => h x (List.mem_cons_of_mem _ hx))]
    · simp only [if_true]

theorem ledgerSum_single (r : LedgerRow) (t : String) :
    ledgerSum [r] t = if r.sku == t then r.qty_in - r.qty_out else 0 := by
  simp [ledgerSum]

theorem livePred_eq_of_live {stocks : List StockRow} {s : String}
    (hlive : ∀ r ∈ stocks, r.deleted = false) :
    ∀ r ∈ stocks, livePred s r = (r.sku == s) := by
  intro r hr
  simp [livePred, hlive r hr]

/-- `sQty` of a list updated at the (present) first row of SKU `s`. -/
theorem sQty_updateFirst_set {stocks : List StockRow} {s : String} {v : Int}
    {row : StockRow}
    (h : stocks.find? (fun r => r.sku == s) = some row) :
    sQty (updateFirst (fun r => r.sku == s)
      (fun r => { r with qty_on_hand := v }) stocks) s = v := by
  have hfind := updateFirst_find?_self (f := fun r =>
      ({ r with qty_on_hand := v } : StockRow)) h
      (by simpa using List.find?_some h)
  simp [sQty, hfind]

/-- `sQty` at other SKUs is unchanged by an update keyed on SKU `s`. -/
theorem sQty_updateFirst_other {stocks : List StockRow} {s t : String}
    {f : StockRow → StockRow} (hsku : ∀ r, (f r).sku = r.sku)
    (h : t ≠ s) :
    sQty (updateFirst (fun r => r.sku == s) f stocks) t = sQty stocks t := by
  have : (updateFirst (fun r => r.sku == s) f stocks).find?
      (fun r => r.sku == t) = stocks.find? (fun r => r.sku == t) := by
    refine updateFirst_find?_congr ?_
    intro a ha
    refine ⟨by rw [hsku a], fun hq => ?_⟩
    have h1 : a.sku = s := by simpa using ha
    have h2 : a.sku = t := by simpa using hq
    exact absurd (h2.symm.trans h1) h
  simp [sQty, this]

/-- Observable effects of a successful `adjust` on a state whose stock rows
are all live: `0 ≤ final_qty`, exactly one `ADJUST` ledger row is appended
whose `qty_in − qty_out` is the delta against the previous snapshot (0 when
the row was freshly created), and the snapshot of the SKU becomes
`final_qty` while every other SKU is untouched. -/
theorem adjust_ok_effects {db : DB} {sku : String} {final_qty : Int} {db2 : DB}
    (hlive : ∀ r ∈ db.stocks, r.deleted = false)
    (hok : adjust db sku final_qty = .ok db2) :
    0 ≤ final_qty ∧
    ∃ qin qout,
      db2.ledger = db.ledger ++ [adjRow (pyStrip sku) qin qout] ∧
      qin - qout = final_qty - sQty db.stocks (pyStrip sku) ∧
      0 ≤ qin ∧ 0 ≤ qout ∧ (qin = 0 ∨ qout = 0) ∧
      sQty db2.stocks (pyStrip sku) = final_qty ∧
      (∀ t, t ≠ pyStrip sku → sQty db2.stocks t = sQty db.stocks t) ∧
      (∀ r ∈ db2.stocks, r.deleted = false) := by
  simp only [adjust] at hok
  split at hok
  · cases hok
  · split at hok
    · cases hok
    · rename_i hfinal
      push_neg at hfinal
      refine ⟨hfinal, ?_⟩
      have hcong : db.stocks.find? (livePred (pyStrip sku)) =
          db.stocks.find? (fun r => r.sku == pyStrip sku) :=
        find?_congr_of_mem (livePred_eq_of_live hlive)
      split at hok
      · rename_i row hrow
        simp only [adjustGo] at hok
        split at hok
        · cases hok
        · cases hok
          have hfound : db.stocks.find? (fun r => r.sku == pyStrip sku) =
              some row := by rw [← hcong, hrow]
          have hupd : updateFirst (livePred (pyStrip sku))
              (fun r => { r with qty_on_hand := final_qty }) db.stocks =
              updateFirst (fun r => r.sku == pyStrip sku)
                (fun r => { r with qty_on_hand := final_qty }) db.stocks :=
            updateFirst_congr_of_mem (livePred_eq_of_live hlive)
          have hbefore : sQty db.stocks (pyStrip sku) = row.qty_on_hand := by
            simp [sQty, hfound]
          refine ⟨_, _, rfl, ?_, ?_, ?_, ?_, ?_, ?_, ?_⟩
          · rw [hbefore]
            split <;> split <;> omega
          · split <;> omega
          · split <;> omega
          · by_cases hd : 0 < final_qty - row.qty_on_hand
            · refine .inr ?_
              rw [if_neg (by omega)]
            · refine .inl ?_
              rw [if_neg hd]
          · simp only [hupd]
            exact sQty_updateFirst_set hfound
          · intro t ht
            simp only [hupd]
            exact sQty_updateFirst_other (fun r => rfl) ht
          · intro r hr
            rcases mem_updateFirst_find? hr with hmem | ⟨x, hx, rfl⟩
            · exact hlive r hmem
            · have := hlive x (List.mem_of_find?_eq_some hx)
              simpa using this
      · rename_i hnone
        split at hok
        · cases hok
        · simp only [adjustGo] at hok
          split at hok
          · rename_i hlt
            simp only [newStockRow] at hlt
            omega
          · cases hok
            have hnofind : db.stocks.find?
                (fun r => r.sku == pyStrip sku) = none := by
              rw [← hcong, hnone]
            have hbefore : sQty db.stocks (pyStrip sku) = 0 := by
              simp [sQty, hnofind]
            have hlive2 : ∀ r ∈ db.stocks ++ [newStockRow (pyStrip sku)],
                r.deleted = false := by
              intro r hr
              rcases List.mem_append.mp hr with hr | hr
              · exact hlive r hr
              · simp at hr
                rw [hr]
                rfl
            have hupd : updateFirst (livePred (pyStrip sku))
                (fun r => { r with qty_on_hand := final_qty })
                (db.stocks ++ [newStockRow (pyStrip sku)]) =
                updateFirst (fun r => r.sku == pyStrip sku)
                  (fun r => { r with qty_on_hand := final_qty })
                  (db.stocks ++ [newStockRow (pyStrip sku)]) :=
              updateFirst_congr_of_mem (livePred_eq_of_live hlive2)
            have hfound : (db.stocks ++ [newStockRow (pyStrip sku)]).find?
                (fun r => r.sku == pyStrip sku) =
                some (newStockRow (pyStrip sku)) := by
              rw [List.find?_append, hnofind]
              simp [List.find?, newStockRow]
            refine ⟨_, _, rfl, ?_, ?_, ?_, ?_, ?_, ?_, ?_⟩
            · rw [hbefore]
              simp only [newStockRow]
              split <;> split <;> omega
            · split <;> omega
            · split <;> omega
            · by_cases hd : 0 < final_qty - (newStockRow (pyStrip sku)).qty_on_hand
              · refine .inr ?_
                rw [if_neg (by omega)]
              · refine .inl ?_
                rw [if_neg hd]
            · simp only [hupd]
              exact sQty_updateFirst_set hfound
            · intro t ht
              simp only [hupd]
              rw [sQty_updateFirst_other
                (f := fun r => { r with qty_on_hand := final_qty })
                (fun r => rfl) ht]
              have hfi : (db.stocks ++ [newStockRow (pyStrip sku)]).find?
                  (fun r => r.sku == t) =
                  db.stocks.find? (fun r => r.sku == t) := by
                rw [List.find?_append]
                rcases hcase : db.stocks.find? (fun r => r.sku == t) with _ | r
                · have hne2 : (pyStrip sku == t) = false := by
                    simp only [beq_eq_false_iff_ne, ne_eq]
                    exact fun hh => ht hh.symm
                  simp [hcase, List.find?, newStockRow, hne2]
                · simp [hcase]
              simp [sQty, hfi]
            · intro r hr
              rcases mem_updateFirst_find? hr with hmem | ⟨x, hx, rfl⟩
              · exact hlive2 r hmem
              · have := hlive2 x (List.mem_of_find?_eq_some hx)
                simpa using this

theorem sQty_applyInbound (st : List StockRow) (s : String) (q : Int)
    (t : String) :
    sQty (applyInbound st s q) t = sQty st t + (if s == t then q else 0) := by
  simp only [applyInbound]
  split
  · rename_i row hrow
    by_cases ht : t = s
    · subst ht
      have := updateFirst_find?_self
        (f := fun r => ({ r with qty_on_hand := r.qty_on_hand + q} : StockRow))
        hrow (by simpa using List.find?_some hrow)
      simp [sQty, this, hrow]
    · rw [sQty_updateFirst_other
        (f := fun r => { r with qty_on_hand := r.qty_on_hand + q })
        (fun r => rfl) ht]
      have : (s == t) = false := by
        simp only [beq_eq_false_iff_ne, ne_eq]
        exact fun hh => ht hh.symm
      simp [this]
  · rename_i hnone
    by_cases ht : t = s
    · subst ht
      simp only [sQty, List.find?_append, hnone, Option.none_or]
      simp [List.find?]
    · have hne : (s == t) = false := by
        simp only [beq_eq_false_iff_ne, ne_eq]
        exact fun hh => ht hh.symm
      simp only [sQty, List.find?_append, hne, Bool.false_eq_true, if_false,
        add_zero]
      rcases hcase : st.find? (fun r => r.sku == t) with _ | r
      · simp [List.find?, hne]
      · simp [hcase]

theorem sQty_foldl_applyInbound (agg : List (String × Int)) :
    ∀ (st : List StockRow) (t : String),
    sQty (agg.foldl (fun st p => applyInbound st p.1 p.2) st) t =
      sQty st t + sumPairs agg t := by
  induction agg with
  | nil => intro st t; simp [sumPairs]
  | cons p rest ih =>
    intro st t
    rcases p with ⟨s, q⟩
    simp only [List.foldl_cons, ih, sQty_applyInbound, sumPairs]
    ring

theorem ledgerSum_inboundRows (hid : Int) (agg : List (String × Int))
    (t : String) :
    ledgerSum (agg.map (inboundRow hid)) t = sumPairs agg t := by
  induction agg with
  | nil => rfl
  | cons p rest ih =>
    rcases p with ⟨s, q⟩
    simp only [List.map_cons, ledgerSum, inboundRow, sumPairs, ih, sub_zero]

theorem sumPairs_addAssoc (s : String) (q : Int) (l : List (String × Int))
    (t : String) :
    sumPairs (addAssoc s q l) t = sumPairs l t + (if s == t then q else 0) := by
  induction l with
  | nil => simp [addAssoc, sumPairs]
  | cons p rest ih =>
    rcases p with ⟨u, v⟩
    by_cases hu : u = s
    · subst hu
      simp only [addAssoc, beq_self_eq_true, if_true, sumPairs]
      split <;> ring
    · have hb : (u == s) = false := by simp [hu]
      simp only [addAssoc, hb, Bool.false_eq_true, if_false, sumPairs, ih]
      ring

theorem sumPairs_aggregate (l : List (String × Int)) (t : String) :
    sumPairs (aggregate l) t = sumPairs l t := by
  suffices h : ∀ acc, sumPairs (l.foldl (fun a p => addAssoc p.1 p.2 a) acc) t =
      sumPairs acc t + sumPairs l t by
    simpa [aggregate, sumPairs] using h []
  induction l with
  | nil => intro acc; simp [sumPairs]
  | cons p rest ih =>
    intro acc
    rcases p with ⟨s, q⟩
    simp only [List.foldl_cons, ih, sumPairs_addAssoc, sumPairs]
    ring

theorem hasKey_addAssoc (s : String) (q : Int) (l : List (String × Int))
    (t : String) :
    hasKey (addAssoc s q l) t = (hasKey l t || (s == t)) := by
  induction l with
  | nil => simp [addAssoc, hasKey]
  | cons p rest ih =>
    rcases p with ⟨u, v⟩
    by_cases hu : u = s
    · subst hu
      simp only [addAssoc, beq_self_eq_true, if_true, hasKey, List.any_cons]
      by_cases hut : u = t
      · simp [hut]
      · have : (u == t) = false := by simp [hut]
        simp [this, hasKey]
    · have hb : (u == s) = false := by simp [hu]
      simp only [addAssoc, hb, Bool.false_eq_true, if_false, hasKey,
        List.any_cons] at ih ⊢
      rw [ih]
      cases (u == t) <;> simp

theorem keyCount_cons (u : String) (v : Int) (l : List (String × Int))
    (t : String) :
    keyCount ((u, v) :: l) t = (if u == t then 1 else 0) + keyCount l t := by
  simp only [keyCount, List.filter]
  cases h : (u == t) <;> simp [Nat.add_comm]

theorem keyCount_addAssoc (s : String) (q : Int) (l : List (String × Int))
    (t : String) :
    keyCount (addAssoc s q l) t =
      keyCount l t + (if (s == t) && !(hasKey l s) then 1 else 0) := by
  induction l with
  | nil =>
    simp only [addAssoc, keyCount_cons, hasKey, List.any_nil, Bool.not_false,
      Bool.and_true, keyCount, List.filter, List.length_nil]
    cases hst : (s == t) <;> simp
  | cons p rest ih =>
    rcases p with ⟨u, v⟩
    by_cases hu : u = s
    · subst hu
      simp only [addAssoc, beq_self_eq_true, if_true, keyCount_cons, hasKey,
        List.any_cons, beq_self_eq_true, Bool.true_or, Bool.not_true,
        Bool.and_false, if_false, add_zero]
      simp
    · have hb : (u == s) = false := by simp [hu]
      simp only [addAssoc, hb, Bool.false_eq_true, if_false, keyCount_cons,
        ih, hasKey, List.any_cons, Bool.false_or]
      omega

theorem hasKey_cons (u : String) (v : Int) (l : List (String × Int))
    (t : String) :
    hasKey ((u, v) :: l) t = ((u == t) || hasKey l t) := by
  simp [hasKey, List.any_cons]

theorem keyCount_aggregate (l : List (String × Int)) (t : String) :
    keyCount (aggregate l) t = if hasKey l t then 1 else 0 := by
  suffices h : ∀ acc, keyCount (l.foldl (fun a p => addAssoc p.1 p.2 a) acc) t =
      keyCount acc t +
        (if !(hasKey acc t) && hasKey l t then 1 else 0) by
    simpa [aggregate, keyCount, hasKey, List.filter] using h []
  induction l with
  | nil => intro acc; simp [hasKey]
  | cons p rest ih =>
    intro acc
    rcases p with ⟨s, q⟩
    simp only [List.foldl_cons, ih, keyCount_addAssoc, hasKey_addAssoc,
      hasKey_cons]
    by_cases hst : s = t
    · subst hst
      cases hacc : hasKey acc s <;> simp [hacc]
    · have hb : (s == t) = false := by simp [hst]
      cases hacc : hasKey acc t <;> cases hrest : hasKey rest t <;>
        simp [hb, hacc, hrest]

theorem countRows_inboundRows (hid : Int) (agg : List (String × Int))
    (s : String) :
    ((agg.map (inboundRow hid)).filter (fun r => r.sku == s)).length =
      keyCount agg s := by
  induction agg with
  | nil => rfl
  | cons p rest ih =>
    rcases p with ⟨u, v⟩
    simp only [List.map_cons, keyCount_cons]
    rw [List.filter_cons]
    have hsku : ((inboundRow hid (u, v)).sku == s) = (u == s) := rfl
    rw [hsku]
    cases hu : (u == s)
    · simpa using ih
    · simpa [List.length_cons, Nat.add_comm] using ih

theorem foldl_updateFirst_pred {P : β → Prop} {xs : List α} {l : List β}
    {pf : α → β → Bool} {ff : α → β → β}
    (hf : ∀ a b, P b → P (ff a b))
    (hl : ∀ b ∈ l, P b) :
    ∀ b ∈ xs.foldl (fun acc a => updateFirst (pf a) (ff a) acc) l, P b := by
  induction xs generalizing l with
  | nil => simpa using hl
  | cons a xs ih =>
    simp only [List.foldl_cons]
    refine ih ?_
    intro b hb
    rcases mem_updateFirst_find? hb with hmem | ⟨x, hx, rfl⟩
    · exact hl b hmem
    · exact hf a x (hl x (List.mem_of_find?_eq_some hx))

theorem checkItems_isError_of_bad {hid : Int} {l : List InboundItem}
    (h : ∃ it ∈ l, it.header_id ≠ hid ∨ it.status = some "committed") :
    ∃ e, checkItems hid l = .error e := by
  induction l with
  | nil => simp at h
  | cons it rest ih =>
    simp only [checkItems]
    by_cases hh : it.header_id = hid
    · have hb : (it.header_id != hid) = false := by simp [hh]
      simp only [hb, Bool.false_eq_true, if_false]
      by_cases hs : it.status = some "committed"
      · have hsb : (it.status == some "committed") = true := by simp [hs]
        simp only [hsb, if_true]
        exact ⟨_, rfl⟩
      · have hsb : (it.status == some "committed") = false := by simp [hs]
        simp only [hsb, Bool.false_eq_true, if_false]
        rcases h with ⟨x, hx, hbad⟩
        rcases List.mem_cons.mp hx with rfl | hx
        · rcases hbad with hbad | hbad
          · exact absurd hh hbad
          · exact absurd hbad hs
        · exact ih ⟨x, hx, hbad⟩
    · have hb : (it.header_id != hid) = true := by simp [hh]
      simp only [hb, if_true]
      exact ⟨_, rfl⟩

/-- Inversion of a successful inbound `confirm`: the header exists, is not
yet committed, every validation passed, and the result state is exactly the
committed header, the per-request quantity updates, the aggregated `INBOUND`
ledger rows and the per-SKU stock increments. -/
theorem inConfirm_ok_inv {db : DB} {header_id : Int}
    {items : List ConfirmItem} {operator : Option String} {db2 : DB}
    (hok : inConfirm db header_id items operator = .ok db2) :
    ∃ hd triples,
      db.inHeaders.find? (fun h => h.id == header_id && !h.deleted) = some hd ∧
      (hd.status == "committed") = false ∧
      collectPairs
        (db.inItems.filter (fun it =>
          (items.map (fun r => r.item_id)).contains it.id && !it.deleted))
        items = .ok triples ∧
      db2 = { db with
              inHeaders := updateFirst
                (fun h => h.id == header_id && !h.deleted)
                (fun h => { h with status := "committed" }) db.inHeaders,
              inItems := markCommitted (items.map (fun r => r.item_id))
                (setQtys triples db.inItems),
              ledger := db.ledger ++
                (aggregate (triples.map (fun t => (t.2.1, t.2.2)))).map
                  (inboundRow header_id),
              stocks := (aggregate (triples.map (fun t => (t.2.1, t.2.2)))).foldl
                (fun st p => applyInbound st p.1 p.2) db.stocks } := by
  simp only [inConfirm] at hok
  split at hok
  · cases hok
  · split at hok
    · cases hok
    · split at hok
      · cases hok
      · split at hok
        · cases hok
        · rename_i hd hhd
          split at hok
          · cases hok
          · rename_i hstat
            split at hok
            · cases hok
            · split at hok
              · cases hok
              · split at hok
                · cases hok
                · split at hok
                  · cases hok
                  · rename_i triples hcoll
                    cases hok
                    exact ⟨hd, triples, hhd, by simpa using hstat, hcoll, rfl⟩

/-- Observable effects of a successful inbound `confirm`: the collected
per-request `(item_id, sku, qty)` triples are aggregated per SKU; exactly one
`INBOUND` ledger row is appended per distinct SKU, carrying the aggregated
quantity as `qty_in`; every SKU's snapshot grows by its aggregated quantity
(a fresh row being created when none existed); the header row is marked
`committed`; and items without a status attribute stay unmarked. -/
theorem inConfirm_ok_effects {db : DB} {header_id : Int}
    {items : List ConfirmItem} {operator : Option String} {db2 : DB}
    (hok : inConfirm db header_id items operator = .ok db2) :
    ∃ triples,
      collectPairs
        (db.inItems.filter (fun it =>
          (items.map (fun r => r.item_id)).contains it.id && !it.deleted))
        items = .ok triples ∧
      db2.ledger = db.ledger ++
        (aggregate (triples.map (fun t => (t.2.1, t.2.2)))).map
          (inboundRow header_id) ∧
      (∀ s, ledgerSum ((aggregate (triples.map (fun t => (t.2.1, t.2.2)))).map
          (inboundRow header_id)) s =
        sumPairs (triples.map (fun t => (t.2.1, t.2.2))) s) ∧
      (∀ s, (((aggregate (triples.map (fun t => (t.2.1, t.2.2)))).map
          (inboundRow header_id)).filter (fun r => r.sku == s)).length =
        if hasKey (triples.map (fun t => (t.2.1, t.2.2))) s then 1 else 0) ∧
      (∀ t, sQty db2.stocks t = sQty db.stocks t +
        sumPairs (triples.map (fun tr => (tr.2.1, tr.2.2))) t) ∧
      (∀ hd, db.inHeaders.find?
          (fun h => h.id == header_id && !h.deleted) = some hd →
        db2.inHeaders.find? (fun h => h.id == header_id && !h.deleted) =
          some { hd with status := "committed" }) ∧
      ((∀ x ∈ db.inItems, x.status = none) →
        ∀ x ∈ db2.inItems, x.status = none) := by
  obtain ⟨hd, triples, hhd, hstat, hcoll, rfl⟩ := inConfirm_ok_inv hok
  refine ⟨triples, hcoll, rfl, ?_, ?_, ?_, ?_, ?_⟩
  · intro s
    exact ledgerSum_inboundRows header_id _ s |>.trans
      (sumPairs_aggregate _ s)
  · intro s
    rw [countRows_inboundRows, keyCount_aggregate]
  · intro t
    have h1 := sQty_foldl_applyInbound
      (aggregate (triples.map (fun tr => (tr.2.1, tr.2.2)))) db.stocks t
    rw [sumPairs_aggregate] at h1
    exact h1
  · intro hd2 hhd2
    rw [hhd2] at hhd
    cases hhd
    exact updateFirst_find?_self hhd2 (by simpa using List.find?_some hhd2)
  · intro hnone
    refine foldl_updateFirst_pred ?_ ?_
    · intro iid it hit
      simp [hit]
    · exact foldl_updateFirst_pred (fun tr it hit => hit) hnone

/-! ## Claim theorems -/

/-- C1 (counterexample): `confirm_outbound` does NOT aggregate the debit per
resolved SKU.  On `exTwoBundles`, two lines resolving to the same base SKU
`X` produce two `OUTBOUND` ledger rows for `X` (each with the line's own
debit), not a single aggregated row. -/
theorem confirm_outbound_two_rows_for_same_base :
    (confirm_outbound exTwoBundles "I1").isOk = true ∧
    ((durable (confirm_outbound exTwoBundles "I1")).ledger.filter
      (fun r => r.sku == "X" && r.event_type == "OUTBOUND")).length = 2 ∧
    ((durable (confirm_outbound exTwoBundles "I1")).ledger.filter
      (fun r => r.sku == "X" && r.event_type == "OUTBOUND")).length ≠ 1 := by
  refine ⟨by decide, by decide, by decide⟩

/-- C1 (amended): on a successful `confirm_outbound`, exactly one `OUTBOUND`
ledger row is inserted per non-deleted line, in line order, with `qty_out`
equal to that line's resolved debit; the snapshot of every SKU drops by the
total debit resolved against it across all lines. -/
theorem confirm_outbound_row_per_line {db : DB} {invoice_no : String}
    {h : OutboundHeader} {db2 : DB}
    (hh : findHeader db (pyStrip invoice_no) = some h)
    (hok : confirm_outbound db invoice_no = .ok db2) :
    db2.ledger = db.ledger ++
      (linesOf db h.id).map (outboundRow db.products h.id) ∧
    (∀ t, sQty db2.stocks t =
      sQty db.stocks t -
        sumPairs (outPairs db.products (linesOf db h.id)) t) := by
  obtain ⟨h2, hh2, _, _, hled, hq, _⟩ := confirm_outbound_ok_effects hok
  rw [hh] at hh2
  cases hh2
  exact ⟨hled, hq⟩

/-- Witness for C1 (amended) at the concrete state `exTwoBundles`. -/
theorem confirm_outbound_row_per_line_witness :
    (durable (confirm_outbound exTwoBundles "I1")).ledger =
      exTwoBundles.ledger ++ (linesOf exTwoBundles 1).map
        (outboundRow exTwoBundles.products 1) := by
  rcases hres : confirm_outbound exTwoBundles "I1" with p | d
  · exfalso
    have hok : (confirm_outbound exTwoBundles "I1").isOk = true := by decide
    rw [hres] at hok
    cases hok
  · have hh : findHeader exTwoBundles (pyStrip "I1") =
        some ⟨1, some "I1", none, "picking", false⟩ := by decide
    have := (confirm_outbound_row_per_line hh hres).1
    simpa [durable] using this

/-- C2: each quantity-changing operation (outbound confirm, inbound confirm,
manual adjust) preserves ledger/snapshot consistency: when every SKU's
`qty_on_hand` equals its ledger sum before the call, the same holds after a
successful call.  (For `adjust` the state is additionally assumed to carry
no soft-deleted stock rows; no service ever soft-deletes one.) -/
theorem stock_ops_preserve_ledger_consistency :
    (∀ (db : DB) (invoice_no : String) (db2 : DB),
      confirm_outbound db invoice_no = .ok db2 →
      Consistent db → Consistent db2) ∧
    (∀ (db : DB) (header_id : Int) (items : List ConfirmItem)
      (operator : Option String) (db2 : DB),
      inConfirm db header_id items operator = .ok db2 →
      Consistent db → Consistent db2) ∧
    (∀ (db : DB) (sku : String) (final_qty : Int) (db2 : DB),
      (∀ r ∈ db.stocks, r.deleted = false) →
      adjust db sku final_qty = .ok db2 →
      Consistent db → Consistent db2) := by
  refine ⟨?_, ?_, ?_⟩
  · intro db inv db2 hok hc s
    obtain ⟨h, _, _, _, hled, hq, _⟩ := confirm_outbound_ok_effects hok
    rw [hq s, hled, ledgerSum_append, ledgerSum_outboundRows, hc s]
    ring
  · intro db hid items op db2 hok hc s
    obtain ⟨triples, _, hled, hsum, _, hq, _, _⟩ := inConfirm_ok_effects hok
    rw [hq s, hled, ledgerSum_append, hsum s, hc s]
  · intro db sku fq db2 hlive hok hc s
    obtain ⟨hfq, qin, qout, hled, hdelta, _, _, _, hself, hother, _⟩ :=
      adjust_ok_effects hlive hok
    rw [hled, ledgerSum_append, ledgerSum_single]
    by_cases hs : s = pyStrip sku
    · subst hs
      have hcs := hc (pyStrip sku)
      simp only [adjRow, beq_self_eq_true, if_true]
      rw [hself]
      omega
    · have hb : ((adjRow (pyStrip sku) qin qout).sku == s) = false := by
        simp only [adjRow, beq_eq_false_iff_ne, ne_eq]
        exact fun hh => hs hh.symm
      rw [hother s hs, hc s, hb]
      simp

/-- Witness for C2 at concrete states: one successful call of each of the
three operations, starting from consistent states. -/
theorem stock_ops_preserve_ledger_consistency_witness :
    Consistent (durable (confirm_outbound exTwoBundles "I1")) ∧
    Consistent (durable (inConfirm exInboundDb 1 exInboundReq (some "DJ"))) ∧
    Consistent (durable (adjust exAdjDb "B" 5)) := by
  refine ⟨?_, ?_, ?_⟩
  · rcases hres : confirm_outbound exTwoBundles "I1" with p | d
    · exfalso
      have hok : (confirm_outbound exTwoBundles "I1").isOk = true := by decide
      rw [hres] at hok
      cases hok
    · have hc : Consistent exTwoBundles := by
        intro s
        simp only [exTwoBundles, sQty, ledgerSum, List.find?]
        cases hx : ("X" == s) <;> simp [hx]
      have := stock_ops_preserve_ledger_consistency.1 exTwoBundles "I1" d
        hres hc
      simpa [durable] using this
  · rcases hres : inConfirm exInboundDb 1 exInboundReq (some "DJ") with p | d
    · exfalso
      have hok : (inConfirm exInboundDb 1 exInboundReq (some "DJ")).isOk =
          true := by decide
      rw [hres] at hok
      cases hok
    · have hc : Consistent exInboundDb := by
        intro s
        simp only [exInboundDb, sQty, ledgerSum, List.find?]
        cases hx : ("A" == s) <;> simp [hx]
      have := (stock_ops_preserve_ledger_consistency.2.1) exInboundDb 1
        exInboundReq (some "DJ") d hres hc
      simpa [durable] using this
  · rcases hres : adjust exAdjDb "B" 5 with p | d
    · exfalso
      have hok : (adjust exAdjDb "B" 5).isOk = true := by decide
      rw [hres] at hok
      cases hok
    · have hc : Consistent exAdjDb := by
        intro s
        simp only [exAdjDb, sQty, ledgerSum, List.find?]
        cases hx : ("B" == s) <;> simp [hx]
      have := (stock_ops_preserve_ledger_consistency.2.2) exAdjDb "B" 5 d
        (by intro r hr; simp only [exAdjDb] at hr; simp at hr; rw [hr]) hres hc
      simpa [durable] using this

/-- C3: a `confirm_outbound` on a fully scanned picking header fails
atomically with `OUTBOUND-STATE-451` when some line's resolved SKU has no
stock row or less on hand than its aggregated required debit — the durable
state is exactly the input state (no ledger row, no decrement, status
unchanged). -/
theorem confirm_outbound_insufficient_stock_atomic {db : DB}
    {invoice_no : String} {h : OutboundHeader}
    (hne : (pyStrip invoice_no == "") = false)
    (hh : findHeader db (pyStrip invoice_no) = some h)
    (hst : h.status = "picking")
    (hlines : (linesOf db h.id).isEmpty = false)
    (hscan : ∀ it ∈ linesOf db h.id, it.qty = it.scanned_qty)
    (hins : ∃ it ∈ linesOf db h.id,
      db.stocks.find?
        (fun r => r.sku == (lineTarget db.products it).1) = none ∨
      sQty db.stocks ((lineTarget db.products it).1) <
        sumPairs (outPairs db.products (linesOf db h.id))
          ((lineTarget db.products it).1)) :
    confirm_outbound db invoice_no =
      .error (⟨"OUTBOUND-STATE-451"⟩, db) ∧
    durable (confirm_outbound db invoice_no) = db := by
  have hstb : (h.status == "picking") = true := by simp [hst]
  have hany : ((linesOf db h.id).any fun it =>
      it.qty != it.scanned_qty) = false := by
    rw [List.any_eq_false]
    intro it hit
    simpa using hscan it hit
  have hmain : confirm_outbound db invoice_no =
      .error (⟨"OUTBOUND-STATE-451"⟩, db) := by
    simp only [confirm_outbound, hne, Bool.false_eq_true, if_false, hh,
      hstb, if_true, hlines, hany]
    rcases hres : processLines db.products h.id (linesOf db h.id)
        db.stocks [] with e | st
    · rw [processLines_error_code hres]
    · exfalso
      obtain ⟨_, _, hbound⟩ := processLines_ok hres
      rcases hins with ⟨it, hit, hcase⟩
      obtain ⟨hsome, hle⟩ := hbound it hit
      rcases hcase with hnone | hlt
      · rw [hnone] at hsome
        cases hsome
      · omega
  exact ⟨hmain, by rw [hmain]; rfl⟩

/-- Witness for C3 at the concrete state `exShortStock` (needs 2 of SKU `A`,
only 1 on hand). -/
theorem confirm_outbound_insufficient_stock_atomic_witness :
    confirm_outbound exShortStock "I3" =
      .error (⟨"OUTBOUND-STATE-451"⟩, exShortStock) ∧
    durable (confirm_outbound exShortStock "I3") = exShortStock := by
  refine confirm_outbound_insufficient_stock_atomic (by decide)
    (h := ⟨1, some "I3", none, "picking", false⟩) (by decide) rfl (by decide)
    (by decide) ?_
  refine ⟨⟨1, 1, "A", 2, 2, false⟩, by decide, .inr (by decide)⟩

/-- C4 (counterexample): a bundle with `base_sku = "X"` but `pack_qty = 1`
is NOT resolved: confirming it debits the bundle's own SKU `B`, leaves `X`
untouched, and writes the ledger row against `B`. -/
theorem confirm_outbound_pack_one_bundle_keeps_own_sku :
    (confirm_outbound exPackOne "I4").isOk = true ∧
    sQty (durable (confirm_outbound exPackOne "I4")).stocks "X" = 5 ∧
    sQty (durable (confirm_outbound exPackOne "I4")).stocks "B" = 4 ∧
    ((durable (confirm_outbound exPackOne "I4")).ledger.filter
      (fun r => r.sku == "X")).length = 0 ∧
    ((durable (confirm_outbound exPackOne "I4")).ledger.filter
      (fun r => r.sku == "B" && r.event_type == "OUTBOUND")).length = 1 := by
  refine ⟨by decide, by decide, by decide, by decide, by decide⟩

/-- C4 (amended): resolution `bundle → base_sku × pack_qty` applies exactly
when the product is a bundle with a non-empty `base_sku` AND `pack_qty > 1`;
such a line's ledger row debits `base_sku` by `pack_qty × qty`.  Any other
line — including a bundle with `pack_qty = 1` or without a usable
`base_sku` — debits the line's own SKU by `qty × 1`. -/
theorem confirm_outbound_bundle_resolution {db : DB} {invoice_no : String}
    {h : OutboundHeader} {db2 : DB} {it : OutboundItem}
    (hh : findHeader db (pyStrip invoice_no) = some h)
    (hok : confirm_outbound db invoice_no = .ok db2)
    (hit : it ∈ linesOf db h.id) :
    outboundRow db.products h.id it ∈ db2.ledger ∧
    (∀ p b, findProduct db.products it.sku = some p → p.is_bundle = true →
      p.base_sku = some b → b ≠ "" → 1 < packEff p →
      lineTarget db.products it = (b, packEff p) ∧
      (outboundRow db.products h.id it).sku = b ∧
      (outboundRow db.products h.id it).qty_out = it.qty * packEff p) ∧
    (∀ p, findProduct db.products it.sku = some p →
      ¬(p.is_bundle = true ∧ (∃ b, p.base_sku = some b ∧ b ≠ "") ∧
        1 < packEff p) →
      lineTarget db.products it = (it.sku, 1) ∧
      (outboundRow db.products h.id it).sku = it.sku ∧
      (outboundRow db.products h.id it).qty_out = it.qty * 1) ∧
    (findProduct db.products it.sku = none →
      lineTarget db.products it = (it.sku, 1)) := by
  obtain ⟨h2, hh2, _, _, hled, _, _⟩ := confirm_outbound_ok_effects hok
  rw [hh] at hh2
  cases hh2
  refine ⟨?_, ?_, ?_, ?_⟩
  · rw [hled]
    exact List.mem_append_right _ (List.mem_map_of_mem _ hit)
  · intro p b hp hib hbb hbne hpk
    have hlt : lineTarget db.products it = (b, packEff p) := by
      simp [lineTarget, hp, hbb, hib, hbne, hpk]
    exact ⟨hlt, by simp [outboundRow, hlt], by simp [outboundRow, hlt]⟩
  · intro p hp hncond
    have hlt : lineTarget db.products it = (it.sku, 1) := by
      rcases hbb : p.base_sku with _ | b
      · simp [lineTarget, hp, hbb]
      · have hcond : ¬(p.is_bundle = true ∧ b ≠ "" ∧ 1 < packEff p) := by
          intro hcontra
          exact hncond ⟨hcontra.1, ⟨b, hbb, hcontra.2.1⟩, hcontra.2.2⟩
        simp [lineTarget, hp, hbb, hcond]
    exact ⟨hlt, by simp [outboundRow, hlt], by simp [outboundRow, hlt]⟩
  · intro hp
    simp [lineTarget, hp]

/-- Witness for C4 (amended): on `exTwoBundles`, line `B1` (bundle, pack 2,
base `X`) resolves to `("X", 2)` and its ledger row lands in the result. -/
theorem confirm_outbound_bundle_resolution_witness :
    outboundRow exTwoBundles.products 1 ⟨1, 1, "B1", 1, 1, false⟩ ∈
      (durable (confirm_outbound exTwoBundles "I1")).ledger ∧
    lineTarget exTwoBundles.products ⟨1, 1, "B1", 1, 1, false⟩ = ("X", 2) := by
  rcases hres : confirm_outbound exTwoBundles "I1" with p | d
  · exfalso
    have hok : (confirm_outbound exTwoBundles "I1").isOk = true := by decide
    rw [hres] at hok
    cases hok
  · have hh : findHeader exTwoBundles (pyStrip "I1") =
        some ⟨1, some "I1", none, "picking", false⟩ := by decide
    have hit : (⟨1, 1, "B1", 1, 1, false⟩ : OutboundItem) ∈
        linesOf exTwoBundles 1 := by decide
    obtain ⟨hmem, hb, _, _⟩ :=
      confirm_outbound_bundle_resolution hh hres hit
    have hres2 := hb ⟨"B1", none, true, some "X", 2, true, false⟩ "X"
      (by decide) rfl rfl (by decide) (by decide)
    exact ⟨by simpa [durable] using hmem, hres2.1⟩

/-- C6: a header whose status is not `picking` (e.g. already `completed`)
cannot be confirmed: `confirm_outbound` raises `OUTBOUND-STATE-451` and the
durable state — ledger, items, stock, header status — is exactly the input
state. -/
theorem confirm_outbound_not_picking_rejected {db : DB} {invoice_no : String}
    {h : OutboundHeader}
    (hne : (pyStrip invoice_no == "") = false)
    (hh : findHeader db (pyStrip invoice_no) = some h)
    (hst : h.status ≠ "picking") :
    confirm_outbound db invoice_no =
      .error (⟨"OUTBOUND-STATE-451"⟩, db) ∧
    durable (confirm_outbound db invoice_no) = db := by
  have hstb : (h.status == "picking") = false := by simp [hst]
  have hmain : confirm_outbound db invoice_no =
      .error (⟨"OUTBOUND-STATE-451"⟩, db) := by
    simp only [confirm_outbound, hne, Bool.false_eq_true, if_false, hh, hstb]
  exact ⟨hmain, by rw [hmain]; rfl⟩

/-- Witness for C6: confirming the already completed `exCompleted`. -/
theorem confirm_outbound_not_picking_rejected_witness :
    confirm_outbound exCompleted "I6" =
      .error (⟨"OUTBOUND-STATE-451"⟩, exCompleted) ∧
    durable (confirm_outbound exCompleted "I6") = exCompleted :=
  confirm_outbound_not_picking_rejected (by decide)
    (h := ⟨1, some "I6", none, "completed", false⟩) (by decide) (by decide)

/-- C10: a picking header with zero non-deleted lines cannot be confirmed:
`confirm_outbound` raises `OUTBOUND-STATE-451` and the durable state is
exactly the input state. -/
theorem confirm_outbound_empty_rejected {db : DB} {invoice_no : String}
    {h : OutboundHeader}
    (hne : (pyStrip invoice_no == "") = false)
    (hh : findHeader db (pyStrip invoice_no) = some h)
    (hst : h.status = "picking")
    (hempty : linesOf db h.id = []) :
    confirm_outbound db invoice_no =
      .error (⟨"OUTBOUND-STATE-451"⟩, db) ∧
    durable (confirm_outbound db invoice_no) = db := by
  have hstb : (h.status == "picking") = true := by simp [hst]
  have hemp : (linesOf db h.id).isEmpty = true := by simp [hempty]
  have hmain : confirm_outbound db invoice_no =
      .error (⟨"OUTBOUND-STATE-451"⟩, db) := by
    simp only [confirm_outbound, hne, Bool.false_eq_true, if_false, hh, hstb,
      if_true, hemp]
  exact ⟨hmain, by rw [hmain]; rfl⟩

/-- Witness for C10: `exNoLines` has one line, but it is soft-deleted. -/
theorem confirm_outbound_empty_rejected_witness :
    confirm_outbound exNoLines "I0" =
      .error (⟨"OUTBOUND-STATE-451"⟩, exNoLines) ∧
    durable (confirm_outbound exNoLines "I0") = exNoLines :=
  confirm_outbound_empty_rejected (by decide)
    (h := ⟨1, some "I0", none, "picking", false⟩) (by decide) rfl (by decide)

/-- On any error, `scan_item` leaves the durable state untouched. -/
theorem scan_item_error_state {db : DB} {invoice_no barcode : String}
    {e : DomainError} {d : DB}
    (h : scan_item db invoice_no barcode = .error (e, d)) : d = db := by
  simp only [scan_item] at h
  repeat' split at h
  all_goals first
  | (cases h; rfl)
  | cases h

/-- Inversion of a successful `scan_item`: the header was in `picking`, the
barcode resolved to a product, a matching non-deleted line was found, and
the call either reported an over-scan without touching the state or
incremented that line's `scanned_qty` by exactly one. -/
theorem scan_item_ok_inv {db : DB} {invoice_no barcode : String} {d : DB}
    {r : ScanResult}
    (h : scan_item db invoice_no barcode = .ok (d, r)) :
    ∃ header product item,
      findHeader db (pyStrip invoice_no) = some header ∧
      (header.status == "picking") = true ∧
      db.products.find?
        (fun p => p.barcode == some (pyStrip barcode)) = some product ∧
      db.outItems.find? (scanPred header.id product.sku) = some item ∧
      ((item.qty ≤ item.scanned_qty ∧ d = db ∧
          r = ⟨item.id, item.qty, item.scanned_qty, true⟩) ∨
        (item.scanned_qty < item.qty ∧
          r = ⟨item.id, item.qty, item.scanned_qty + 1, false⟩ ∧
          d = { db with
                outItems := updateFirst (scanPred header.id product.sku)
                  (fun x => { x with scanned_qty := x.scanned_qty + 1 })
                  db.outItems })) := by
  simp only [scan_item] at h
  split at h
  · cases h
  · split at h
    · cases h
    · split at h
      · cases h
      · rename_i header hheader
        split at h
        · rename_i hstatus
          split at h
          · cases h
          · rename_i product hproduct
            split at h
            · cases h
            · rename_i item hitem
              split at h
              · rename_i hover
                cases h
                exact ⟨header, product, item, hheader, by simpa using hstatus,
                  hproduct, hitem, .inl ⟨hover, rfl, rfl⟩⟩
              · rename_i hunder
                push_neg at hunder
                cases h
                exact ⟨header, product, item, hheader, by simpa using hstatus,
                  hproduct, hitem, .inr ⟨hunder, rfl, rfl⟩⟩
        · cases h

/-- Any `scan_item` call preserves `scanned_qty ≤ qty` on every line. -/
theorem scan_item_preserves_scan_bound (db : DB) (invoice_no barcode : String)
    (hbound : ∀ it ∈ db.outItems, it.scanned_qty ≤ it.qty) :
    ∀ it ∈ (durableScan (scan_item db invoice_no barcode)).outItems,
      it.scanned_qty ≤ it.qty := by
  rcases hres : scan_item db invoice_no barcode with p | pr
  · rcases p with ⟨e, d⟩
    have hd : d = db := scan_item_error_state hres
    subst hd
    simpa [durableScan] using hbound
  · rcases pr with ⟨d, r⟩
    obtain ⟨header, product, item, _, _, _, hitem, hcase⟩ :=
      scan_item_ok_inv hres
    rcases hcase with ⟨_, rfl, _⟩ | ⟨hlt, _, rfl⟩
    · simpa [durableScan] using hbound
    · simp only [durableScan]
      intro it hit
      rcases mem_updateFirst_find? hit with hmem | ⟨x, hx, rfl⟩
      · exact hbound it hmem
      · rw [hx] at hitem
        cases hitem
        simp only []
        omega

/-- C5: a `scan_item` call that matches a line never takes `scanned_qty`
past `qty`: at `scanned_qty ≥ qty` it answers with the over-scan marker and
an unchanged state, otherwise it increments `scanned_qty` by exactly 1;
consequently every line's `scanned_qty ≤ qty` is preserved by any sequence
of `scan_item` calls. -/
theorem scan_item_capped_at_qty {db : DB} {invoice_no barcode : String}
    {h : OutboundHeader} {p : Product} {item : OutboundItem}
    (hne : (pyStrip invoice_no == "") = false)
    (hbne : (pyStrip barcode == "") = false)
    (hh : findHeader db (pyStrip invoice_no) = some h)
    (hst : (h.status == "picking") = true)
    (hp : db.products.find?
      (fun x => x.barcode == some (pyStrip barcode)) = some p)
    (hi : db.outItems.find? (scanPred h.id p.sku) = some item) :
    (item.qty ≤ item.scanned_qty →
      scan_item db invoice_no barcode =
        .ok (db, ⟨item.id, item.qty, item.scanned_qty, true⟩)) ∧
    (item.scanned_qty < item.qty →
      scan_item db invoice_no barcode =
        .ok ({ db with
               outItems := updateFirst (scanPred h.id p.sku)
                 (fun x => { x with scanned_qty := x.scanned_qty + 1 })
                 db.outItems },
             ⟨item.id, item.qty, item.scanned_qty + 1, false⟩) ∧
      (durableScan (scan_item db invoice_no barcode)).outItems.find?
          (scanPred h.id p.sku) =
        some { item with scanned_qty := item.scanned_qty + 1 } ∧
      (durableScan (scan_item db invoice_no barcode)).stocks = db.stocks ∧
      (durableScan (scan_item db invoice_no barcode)).ledger = db.ledger) ∧
    ((∀ it ∈ db.outItems, it.scanned_qty ≤ it.qty) →
      ∀ it ∈ (durableScan (scan_item db invoice_no barcode)).outItems,
        it.scanned_qty ≤ it.qty) := by
  refine ⟨?_, ?_, scan_item_preserves_scan_bound db invoice_no barcode⟩
  · intro hover
    simp only [scan_item, hne, Bool.false_eq_true, if_false, hbne, hh, hst,
      if_true, hp, hi, if_pos hover]
  · intro hunder
    have hmain : scan_item db invoice_no barcode =
        .ok ({ db with
               outItems := updateFirst (scanPred h.id p.sku)
                 (fun x => { x with scanned_qty := x.scanned_qty + 1 })
                 db.outItems },
             ⟨item.id, item.qty, item.scanned_qty + 1, false⟩) := by
      simp only [scan_item, hne, Bool.false_eq_true, if_false, hbne, hh, hst,
        if_true, hp, hi, if_neg (by omega : ¬item.qty ≤ item.scanned_qty)]
    refine ⟨hmain, ?_, by rw [hmain]; rfl, by rw [hmain]; rfl⟩
    rw [hmain]
    simp only [durableScan]
    exact updateFirst_find?_self hi (by
      have := List.find?_some hi
      simpa [scanPred] using this)

/-- Witness for C5: scanning barcode `1234` on `exScanDb` increments the
line from 0 to 1 and keeps the bound. -/
theorem scan_item_capped_at_qty_witness :
    scan_item exScanDb "S1" "1234" =
      .ok ({ exScanDb with
             outItems := updateFirst (scanPred 1 "A")
               (fun x => { x with scanned_qty := x.scanned_qty + 1 })
               exScanDb.outItems },
           ⟨1, 2, 1, false⟩) := by
  have h := @scan_item_capped_at_qty exScanDb "S1" "1234"
    ⟨1, some "S1", none, "picking", false⟩
    ⟨"A", some "1234", false, none, 1, true, false⟩
    ⟨1, 1, "A", 2, 0, false⟩
    (by decide) (by decide) (by decide) (by decide) (by decide) (by decide)
  exact (h.2.1 (by decide)).1

/-- C7: on an existing (live) stock row, `adjust(sku, final_qty)` with
`final_qty ≥ 0` refuses with `STOCK-STATE-451` and leaves the state
untouched when `final_qty < qty_pending_out`; otherwise it inserts exactly
one `ADJUST` ledger row whose `qty_in − qty_out` equals
`final_qty − qty_on_hand` and sets `qty_on_hand` to `final_qty`. -/
theorem adjust_pending_guard_and_delta_row {db : DB} {sku : String}
    {final_qty : Int} {row : StockRow}
    (hlive : ∀ r ∈ db.stocks, r.deleted = false)
    (hs : (pyStrip sku == "") = false)
    (hrow : db.stocks.find? (livePred (pyStrip sku)) = some row)
    (hfinal : 0 ≤ final_qty) :
    (final_qty < row.qty_pending_out →
      adjust db sku final_qty = .error (⟨"STOCK-STATE-451"⟩, db) ∧
      durable (adjust db sku final_qty) = db) ∧
    (row.qty_pending_out ≤ final_qty →
      ∃ db2 qin qout,
        adjust db sku final_qty = .ok db2 ∧
        db2.ledger = db.ledger ++ [adjRow (pyStrip sku) qin qout] ∧
        (adjRow (pyStrip sku) qin qout).event_type = "ADJUST" ∧
        qin - qout = final_qty - row.qty_on_hand ∧
        sQty db2.stocks (pyStrip sku) = final_qty) := by
  have h1 : ¬final_qty < 0 := not_lt.mpr hfinal
  constructor
  · intro hlt
    have hmain : adjust db sku final_qty =
        .error (⟨"STOCK-STATE-451"⟩, db) := by
      simp only [adjust, hs, Bool.false_eq_true, if_false, h1, hrow,
        adjustGo, if_pos hlt]
    exact ⟨hmain, by rw [hmain]; rfl⟩
  · intro hge
    cases hres : adjust db sku final_qty with
    | error p =>
      exfalso
      have h2 : ¬final_qty < row.qty_pending_out := not_lt.mpr hge
      simp only [adjust, hs, Bool.false_eq_true, if_false, h1, hrow,
        adjustGo, h2] at hres
      cases hres
    | ok db2 =>
      obtain ⟨_, qin, qout, hled, hdelta, _, _, _, hself, _, _⟩ :=
        adjust_ok_effects hlive hres
      have hsq : sQty db.stocks (pyStrip sku) = row.qty_on_hand := by
        have hcong : db.stocks.find? (livePred (pyStrip sku)) =
            db.stocks.find? (fun r => r.sku == pyStrip sku) :=
          find?_congr_of_mem (livePred_eq_of_live hlive)
        rw [hcong] at hrow
        simp [sQty, hrow]
      rw [hsq] at hdelta
      exact ⟨db2, qin, qout, rfl, hled, rfl, hdelta, hself⟩

/-- Witness for C7: raising `B` from 3 to 5 on `exAdjDb` succeeds; setting
`B` to 0 on `exAdjPending` (1 pending out) fails with STATE. -/
theorem adjust_pending_guard_and_delta_row_witness :
    (∃ db2 qin qout,
      adjust exAdjDb "B" 5 = .ok db2 ∧
      db2.ledger = exAdjDb.ledger ++ [adjRow "B" qin qout] ∧
      (adjRow "B" qin qout).event_type = "ADJUST" ∧
      qin - qout = 5 - 3 ∧
      sQty db2.stocks "B" = 5) ∧
    adjust exAdjPending "B" 0 =
      .error (⟨"STOCK-STATE-451"⟩, exAdjPending) := by
  constructor
  · have h := @adjust_pending_guard_and_delta_row exAdjDb "B" 5
      ⟨"B", 3, 0, 0, false⟩
      (by intro r hr; simp only [exAdjDb] at hr; simp at hr; rw [hr])
      (by decide) (by decide) (by decide)
    exact h.2 (by decide)
  · have h := @adjust_pending_guard_and_delta_row exAdjPending "B" 0
      ⟨"B", 3, 0, 1, false⟩
      (by intro r hr; simp only [exAdjPending] at hr; simp at hr; rw [hr])
      (by decide) (by decide) (by decide)
    exact (h.1 (by decide)).1

/-- C9: `adjust(sku, final_qty)` with `final_qty` equal to the current
`qty_on_hand` (and at least `qty_pending_out`) still inserts a ledger row —
with `qty_in = 0` AND `qty_out = 0` — so the service does write ledger rows
in which neither quantity field is nonzero. -/
theorem adjust_zero_delta_row {db : DB} {sku : String} {row : StockRow}
    (hlive : ∀ r ∈ db.stocks, r.deleted = false)
    (hs : (pyStrip sku == "") = false)
    (hrow : db.stocks.find? (livePred (pyStrip sku)) = some row)
    (h0 : 0 ≤ row.qty_on_hand)
    (hpend : row.qty_pending_out ≤ row.qty_on_hand) :
    ∃ db2,
      adjust db sku row.qty_on_hand = .ok db2 ∧
      db2.ledger = db.ledger ++ [adjRow (pyStrip sku) 0 0] ∧
      (adjRow (pyStrip sku) 0 0).qty_in = 0 ∧
      (adjRow (pyStrip sku) 0 0).qty_out = 0 ∧
      sQty db2.stocks (pyStrip sku) = row.qty_on_hand := by
  have h1 : ¬row.qty_on_hand < 0 := not_lt.mpr h0
  cases hres : adjust db sku row.qty_on_hand with
  | error p =>
    exfalso
    have h2 : ¬row.qty_on_hand < row.qty_pending_out := not_lt.mpr hpend
    simp only [adjust, hs, Bool.false_eq_true, if_false, h1, hrow,
      adjustGo, h2] at hres
    cases hres
  | ok db2 =>
    obtain ⟨_, qin, qout, hled, hdelta, hq1, hq2, hq3, hself, _, _⟩ :=
      adjust_ok_effects hlive hres
    have hsq : sQty db.stocks (pyStrip sku) = row.qty_on_hand := by
      have hcong : db.stocks.find? (livePred (pyStrip sku)) =
          db.stocks.find? (fun r => r.sku == pyStrip sku) :=
        find?_congr_of_mem (livePred_eq_of_live hlive)
      rw [hcong] at hrow
      simp [sQty, hrow]
    rw [hsq] at hdelta
    have hzin : qin = 0 := by rcases hq3 with h | h <;> omega
    have hzout : qout = 0 := by rcases hq3 with h | h <;> omega
    subst hzin
    subst hzout
    exact ⟨db2, rfl, hled, rfl, rfl, hself⟩

/-- Witness for C9: adjusting `B` to its current quantity 3 on `exAdjDb`
appends an `ADJUST` row with both quantity fields zero. -/
theorem adjust_zero_delta_row_witness :
    ∃ db2,
      adjust exAdjDb "B" 3 = .ok db2 ∧
      db2.ledger = exAdjDb.ledger ++ [adjRow "B" 0 0] ∧
      (adjRow "B" 0 0).qty_in = 0 ∧
      (adjRow "B" 0 0).qty_out = 0 ∧
      sQty db2.stocks "B" = 3 :=
  @adjust_zero_delta_row exAdjDb "B" ⟨"B", 3, 0, 0, false⟩
    (by intro r hr; simp only [exAdjDb] at hr; simp at hr; rw [hr])
    (by decide) (by decide) (by decide) (by decide)

/-- C8 (counterexample): a successful inbound confirm does NOT mark the
referenced items committed — `inbound_item` has no status column, so the
`hasattr` guard skips the write.  On `exInboundDb` the confirm succeeds
(quantities are updated from the request), yet no item carries
`status = "committed"` afterwards. -/
theorem inConfirm_items_left_unmarked :
    (inConfirm exInboundDb 1 exInboundReq (some "DJ")).isOk = true ∧
    (durable (inConfirm exInboundDb 1 exInboundReq (some "DJ"))).inItems =
      [⟨1, 1, "A", 2, none, false⟩, ⟨2, 1, "A", 3, none, false⟩] ∧
    ¬(∀ x ∈ (durable (inConfirm exInboundDb 1 exInboundReq
        (some "DJ"))).inItems, x.status = some "committed") := by
  refine ⟨by decide, by decide, by decide⟩

/-- C8 (amended): a successful inbound confirm aggregates the requested
quantities per stored SKU, appends exactly one `INBOUND` ledger row per
distinct SKU carrying the aggregated `qty_in`, increments (or creates) each
SKU's snapshot by the aggregated quantity, and marks the HEADER committed;
items carry no status attribute in this schema and stay unmarked.  A
referenced item that belongs to a different header or reads
`status = "committed"` makes the call fail with a domain error and leave
the durable state untouched. -/
theorem inConfirm_per_sku_ledger_and_header_commit :
    (∀ (db : DB) (header_id : Int) (items : List ConfirmItem)
        (operator : Option String) (db2 : DB),
      inConfirm db header_id items operator = .ok db2 →
      ∃ triples,
        collectPairs
          (db.inItems.filter (fun it =>
            (items.map (fun r => r.item_id)).contains it.id && !it.deleted))
          items = .ok triples ∧
        db2.ledger = db.ledger ++
          (aggregate (triples.map (fun t => (t.2.1, t.2.2)))).map
            (inboundRow header_id) ∧
        (∀ s, ledgerSum ((aggregate (triples.map (fun t => (t.2.1, t.2.2)))).map
            (inboundRow header_id)) s =
          sumPairs (triples.map (fun t => (t.2.1, t.2.2))) s) ∧
        (∀ s, (((aggregate (triples.map (fun t => (t.2.1, t.2.2)))).map
            (inboundRow header_id)).filter (fun r => r.sku == s)).length =
          if hasKey (triples.map (fun t => (t.2.1, t.2.2))) s then 1 else 0) ∧
        (∀ t, sQty db2.stocks t = sQty db.stocks t +
          sumPairs (triples.map (fun tr => (tr.2.1, tr.2.2))) t) ∧
        (∀ hd, db.inHeaders.find?
            (fun h => h.id == header_id && !h.deleted) = some hd →
          db2.inHeaders.find? (fun h => h.id == header_id && !h.deleted) =
            some { hd with status := "committed" }) ∧
        ((∀ x ∈ db.inItems, x.status = none) →
          ∀ x ∈ db2.inItems, x.status = none)) ∧
    (∀ (db : DB) (header_id : Int) (items : List ConfirmItem)
        (operator : Option String) (hd : InboundHeader) (op : String),
      0 < header_id → items ≠ [] →
      normOperator operator = .ok op →
      db.inHeaders.find? (fun h => h.id == header_id && !h.deleted) =
        some hd →
      (hd.status == "committed") = false →
      (items.any fun r => r.item_id ≤ 0) = false →
      (db.inItems.filter (fun it =>
        (items.map (fun r => r.item_id)).contains it.id &&
          !it.deleted)).length = (items.map (fun r => r.item_id)).length →
      (∃ it ∈ db.inItems.filter (fun it =>
          (items.map (fun r => r.item_id)).contains it.id && !it.deleted),
        it.header_id ≠ header_id ∨ it.status = some "committed") →
      ∃ e, inConfirm db header_id items operator = .error (e, db)) := by
  constructor
  · intro db header_id items operator db2 hok
    exact inConfirm_ok_effects hok
  · intro db hid items operator hd op hpos hne hop hhd hstat hids hlen hbad
    obtain ⟨e, he⟩ := checkItems_isError_of_bad hbad
    refine ⟨e, ?_⟩
    have h1 : ¬hid ≤ 0 := by omega
    have h2 : items.isEmpty = false := by
      cases items with
      | nil => exact absurd rfl hne
      | cons a l => rfl
    have h3 : ¬(db.inItems.filter (fun it =>
        (items.map (fun r => r.item_id)).contains it.id &&
          !it.deleted)).length ≠ (items.map (fun r => r.item_id)).length :=
      fun hc => hc hlen
    simp only [inConfirm, h1, if_false, h2, Bool.false_eq_true, hop, hhd,
      hstat, hids, h3, he]

/-- Witness for C8 (amended): confirming `exInboundDb` raises SKU `A`'s
snapshot from 10 to 15 (aggregated 2 + 3); on `exInboundBad`, where the
second item belongs to another header, the call fails and leaves the state
untouched. -/
theorem inConfirm_per_sku_ledger_and_header_commit_witness :
    sQty (durable (inConfirm exInboundDb 1 exInboundReq
      (some "DJ"))).stocks "A" = 15 ∧
    (∃ e, inConfirm exInboundBad 1 [⟨1, none, some 1⟩, ⟨2, none, some 1⟩]
      (some "DJ") = .error (e, exInboundBad)) := by
  constructor
  · rcases hres : inConfirm exInboundDb 1 exInboundReq (some "DJ") with p | d
    · exfalso
      have hok : (inConfirm exInboundDb 1 exInboundReq (some "DJ")).isOk =
          true := by decide
      rw [hres] at hok
      cases hok
    · obtain ⟨triples, hcoll, _, _, _, hq, _, _⟩ :=
        inConfirm_per_sku_ledger_and_header_commit.1 exInboundDb 1
          exInboundReq (some "DJ") d hres
      have hcoll2 : collectPairs
          (exInboundDb.inItems.filter (fun it =>
            (exInboundReq.map (fun r => r.item_id)).contains it.id &&
              !it.deleted))
          exInboundReq = .ok [(1, "A", 2), (2, "A", 3)] := by decide
      rw [hcoll2] at hcoll
      have htr : triples = [(1, "A", 2), (2, "A", 3)] :=
        (Except.ok.inj hcoll).symm
      subst htr
      have hval : sQty exInboundDb.stocks "A" +
          sumPairs ([((1 : Int), "A", (2 : Int)),
            ((2 : Int), "A", (3 : Int))].map (fun tr => (tr.2.1, tr.2.2)))
            "A" = 15 := by decide
      simp only [durable]
      rw [hq "A"]
      exact hval
  · exact inConfirm_per_sku_ledger_and_header_commit.2 exInboundBad 1
      [⟨1, none, some 1⟩, ⟨2, none, some 1⟩] (some "DJ")
      ⟨1, "draft", false⟩ "DJ" (by decide) (by decide) (by decide)
      (by decide) (by decide) (by decide) (by decide)
      ⟨⟨2, 2, "A", 1, none, false⟩, by decide, .inl (by decide)⟩

end StockApp
